import Mathlib

/-!
# The nginx JSONP filter module (`src/ngx_http_jsonp_module.c`)

A shallow embedding of the module's two filters and of its configuration
hooks, followed by the properties proved about them.

Modelling conventions.

* A buffer chain (`ngx_chain_t *`, NULL-terminated) is the list of the buffers
  its links point to, each taken with the field values it has when the filter
  looks at it; `NULL` is the empty list.  A pointer to a link of a chain is the
  split of the chain at that link.
* A `u_char *` is the object pointed into together with an offset.
* The memory pool is seen through the outcomes of the allocations made from it.
* A filter ends either with `return NGX_ERROR` or with the call of the next
  filter of the host's chain; the value returned records which, and with what
  arguments.
* The declarations of nginx core the module relies on (`ngx_buf_t`, the
  `ngx_buf_*` macros, `ngx_string`, `ngx_conf_merge_value`, `NGX_HTTP_OK`,
  `NGX_CONF_UNSET`) are not among the module's sources; they are written here as
  nginx declares them.
-/

namespace NgxHttpJsonp

/-! ## nginx core: strings, pointers, buffers, pools -/

/-- A `u_char *`: the bytes of the object pointed into, and the offset of the
pointer in it.  The null pointer of a zeroed structure is offset 0 into
nothing. -/
structure u_char_ptr where
  obj : List Char
  off : Nat
deriving DecidableEq

/-- Pointer arithmetic `p + n`. -/
def u_char_ptr.add (p : u_char_ptr) (n : Nat) : u_char_ptr :=
  { p with off := p.off + n }

/-- Pointer difference `q - p`, as the signed `off_t` the buffer macros cast it to. -/
def u_char_ptr.diff (q p : u_char_ptr) : Int :=
  (q.off : Int) - (p.off : Int)

/-- A C string literal used as `(u_char *) "..."`: a pointer to its first byte. -/
def c_literal (s : String) : u_char_ptr :=
  { obj := s.toList, off := 0 }

/-- C `sizeof` of a string literal: its characters and the terminating NUL. -/
def sizeof_literal (s : String) : Nat :=
  s.length + 1

/-- The type `ngx_str_t`: a length and a data pointer. -/
structure ngx_str_t where
  len : Nat
  data : u_char_ptr
deriving DecidableEq

/-- Modelled from the spec: nginx's header `ngx_string.h` is not among the
module's sources.  This is its macro `ngx_string(str)`, which is
`{ sizeof(str) - 1, (u_char *) str }`. -/
def ngx_string (s : String) : ngx_str_t :=
  { len := sizeof_literal s - 1, data := c_literal s }

/-- The fields of nginx's `ngx_buf_t` that carry content or flags.  `file`
stands for the bytes of the file the buffer's `file` pointer names. -/
structure ngx_buf_t where
  pos : u_char_ptr
  last : u_char_ptr
  file_pos : Int
  file_last : Int
  file : List Char
  temporary : Bool
  memory : Bool
  mmap : Bool
  recycled : Bool
  in_file : Bool
  flush : Bool
  sync : Bool
  last_buf : Bool
  last_in_chain : Bool
  last_shadow : Bool
  temp_file : Bool
deriving DecidableEq

/-- A buffer chain: the buffers of its links, in link order. -/
abbrev ngx_chain_t := List ngx_buf_t

/-- Modelled from the spec: nginx's header `ngx_buf.h` is not among the module's
sources.  This is its macro `ngx_buf_in_memory(b)`, which is
`b->temporary || b->memory || b->mmap`. -/
def ngx_buf_in_memory (b : ngx_buf_t) : Bool :=
  b.temporary || b.memory || b.mmap

/-- Modelled from the spec: nginx's header `ngx_buf.h` is not among the module's
sources.  This is its macro `ngx_buf_special(b)`, which is
`(b->flush || b->last_buf || b->sync) && !ngx_buf_in_memory(b) && !b->in_file`:
a marker-only buffer that carries no payload. -/
def ngx_buf_special (b : ngx_buf_t) : Bool :=
  (b.flush || b.last_buf || b.sync) && !ngx_buf_in_memory b && !b.in_file

/-- Modelled from the spec: nginx's header `ngx_buf.h` is not among the module's
sources.  This is its macro `ngx_buf_size(b)`, which is
`ngx_buf_in_memory(b) ? (off_t) (b->last - b->pos) : (b->file_last - b->file_pos)`. -/
def ngx_buf_size (b : ngx_buf_t) : Int :=
  if ngx_buf_in_memory b then b.last.diff b.pos else b.file_last - b.file_pos

/-- The memory pool `ngx_pool_t`, as far as the filters observe it: `outcomes`
lists whether each of the coming allocations succeeds, in order; allocations
beyond the list succeed. -/
structure ngx_pool_t where
  outcomes : List Bool
deriving DecidableEq

/-- One allocation from the pool: whether it succeeded, and the pool afterwards. -/
def ngx_palloc (pool : ngx_pool_t) : Bool × ngx_pool_t :=
  match pool.outcomes with
  | [] => (true, pool)
  | ok :: rest => (ok, { outcomes := rest })

/-- The all-zero `ngx_buf_t`, as `ngx_pcalloc` hands it out. -/
def ngx_buf_zero : ngx_buf_t :=
  { pos := ⟨[], 0⟩, last := ⟨[], 0⟩, file_pos := 0, file_last := 0, file := [],
    temporary := false, memory := false, mmap := false, recycled := false,
    in_file := false, flush := false, sync := false, last_buf := false,
    last_in_chain := false, last_shadow := false, temp_file := false }

/-- The call `ngx_calloc_buf(pool)`: a zeroed buffer, or NULL. -/
def ngx_calloc_buf (pool : ngx_pool_t) : Option ngx_buf_t × ngx_pool_t :=
  match ngx_palloc pool with
  | (true, pool1) => (some ngx_buf_zero, pool1)
  | (false, pool1) => (none, pool1)

/-- The call `ngx_alloc_chain_link(pool)`: a link whose fields are yet to be
set, or NULL. -/
def ngx_alloc_chain_link (pool : ngx_pool_t) : Option Unit × ngx_pool_t :=
  match ngx_palloc pool with
  | (true, pool1) => (some (), pool1)
  | (false, pool1) => (none, pool1)

/-! ## The module's own types and constants -/

/-- Modelled from the spec: nginx's header `ngx_http_request.h` is not among the
module's sources.  This is its constant `NGX_HTTP_OK`, the status 200. -/
def NGX_HTTP_OK : Nat := 200

/-- Modelled from the spec: nginx's header `ngx_conf_file.h` is not among the
module's sources.  This is its constant `NGX_CONF_UNSET`, which is -1. -/
def NGX_CONF_UNSET : Int := -1

/-- The global `ngx_http_jsonp_mimetype = ngx_string("text/javascript")`. -/
def ngx_http_jsonp_mimetype : ngx_str_t :=
  ngx_string "text/javascript"

/-- The structure `ngx_http_jsonp_conf_t`; `enable` is an `ngx_flag_t`. -/
structure ngx_http_jsonp_conf_t where
  enable : Int
deriving DecidableEq

/-- The structure `ngx_http_jsonp_ctx_t`, whose only member is the one-bit field
`prefix`. -/
structure ngx_http_jsonp_ctx_t where
  prefix_ : Bool
deriving DecidableEq

/-- The members of `r->headers_out` the module reads or writes;
`content_length_n` is an `off_t`, -1 when the length is not known. -/
structure ngx_http_headers_out_t where
  status : Nat
  content_type : ngx_str_t
  content_type_len : Nat
  content_length_n : Int
deriving DecidableEq

/-- The members of `ngx_http_request_t` the module reads or writes: the pool,
the location configuration of this module, the slot of this module's request
context (NULL until set), the output headers and the `header_only` bit. -/
structure ngx_http_request_t where
  pool : ngx_pool_t
  loc_conf : ngx_http_jsonp_conf_t
  ctx : Option ngx_http_jsonp_ctx_t
  headers_out : ngx_http_headers_out_t
  header_only : Bool
deriving DecidableEq

/-- An `off_t` value after an arithmetic operation: 64 bits, two's complement. -/
def off_t_wrap (x : Int) : Int :=
  (x + 2 ^ 63) % 2 ^ 64 - 2 ^ 63

/-- The call `ngx_pcalloc(r->pool, sizeof(ngx_http_jsonp_ctx_t))`: a zeroed
context, or NULL. -/
def ngx_pcalloc_ctx (pool : ngx_pool_t) : Option ngx_http_jsonp_ctx_t × ngx_pool_t :=
  match ngx_palloc pool with
  | (true, pool1) => (some { prefix_ := false }, pool1)
  | (false, pool1) => (none, pool1)

/-- How the header filter ends: `return NGX_ERROR`, or
`return ngx_http_next_header_filter(r)` with the request as it then is. -/
inductive header_return where
  | NGX_ERROR (r : ngx_http_request_t)
  | ngx_http_next_header_filter (r : ngx_http_request_t)
deriving DecidableEq

/-- How the body filter ends: `return NGX_ERROR`, or
`return ngx_http_next_body_filter(r, in)` with the request and the chain as
they then are. -/
inductive body_return where
  | NGX_ERROR (r : ngx_http_request_t)
  | ngx_http_next_body_filter (r : ngx_http_request_t) (chain : ngx_chain_t)
deriving DecidableEq

/-! ## Configuration hooks -/

/-- The function `ngx_http_jsonp_create_conf`, given the pool `cf->pool`: the
configuration it returns, and the pool afterwards.  The source does not test
the result of `ngx_pcalloc`; when the allocation fails the store
`json_conf->enable = NGX_CONF_UNSET` goes through a null pointer and the call
has no result, which is `none` here. -/
def ngx_http_jsonp_create_conf (pool : ngx_pool_t) :
    Option ngx_http_jsonp_conf_t × ngx_pool_t :=
  -- json_conf = ngx_pcalloc(cf->pool, sizeof(ngx_http_jsonp_conf_t));
  match ngx_palloc pool with
  | (true, pool1) =>
    let json_conf : ngx_http_jsonp_conf_t := { enable := 0 }
    -- json_conf->enable = NGX_CONF_UNSET; return json_conf;
    (some { json_conf with enable := NGX_CONF_UNSET }, pool1)
  | (false, pool1) => (none, pool1)

/-- Modelled from the spec: nginx's header `ngx_conf_file.h` is not among the
module's sources.  This is its macro `ngx_conf_merge_value(conf, prev, default)`,
which is `if (conf == NGX_CONF_UNSET) conf = (prev == NGX_CONF_UNSET) ? default : prev;`;
the value is that of `conf` afterwards. -/
def ngx_conf_merge_value (conf prev default : Int) : Int :=
  if conf = NGX_CONF_UNSET then (if prev = NGX_CONF_UNSET then default else prev) else conf

/-- The function `ngx_http_jsonp_merge_conf`: the child configuration after the merge. -/
def ngx_http_jsonp_merge_conf (parent child : ngx_http_jsonp_conf_t) : ngx_http_jsonp_conf_t :=
  { child with enable := ngx_conf_merge_value child.enable parent.enable 0 }

/-! ## The header filter -/

/-- The function `ngx_http_jsonp_header_filter`. -/
def ngx_http_jsonp_header_filter (r : ngx_http_request_t) : header_return :=
  let cf := r.loc_conf
  if cf.enable ≠ 0 ∧ r.headers_out.status = NGX_HTTP_OK ∧ r.header_only = false then
    -- ctx = ngx_pcalloc(r->pool, sizeof(ngx_http_jsonp_ctx_t));
    match ngx_pcalloc_ctx r.pool with
    | (none, pool1) => header_return.NGX_ERROR { r with pool := pool1 }
    | (some ctx, pool1) =>
      -- ngx_http_set_ctx(r, ctx, ngx_http_jsonp_filter_module);
      let r1 := { r with pool := pool1, ctx := some ctx }
      -- r->headers_out.content_type = ngx_http_jsonp_mimetype;
      -- r->headers_out.content_type_len = ngx_http_jsonp_mimetype.len;
      let r2 := { r1 with headers_out :=
        { r1.headers_out with content_type := ngx_http_jsonp_mimetype,
                              content_type_len := ngx_http_jsonp_mimetype.len } }
      -- if (content_length_n != -1) content_length_n += sizeof("callback();") - 1;
      let padded : Int :=
        off_t_wrap (r2.headers_out.content_length_n + ((sizeof_literal "callback();" - 1 : Nat) : Int))
      let r3 :=
        if r2.headers_out.content_length_n ≠ -1 then
          { r2 with headers_out := { r2.headers_out with content_length_n := padded } }
        else r2
      header_return.ngx_http_next_header_filter r3
  else
    header_return.ngx_http_next_header_filter r

/-! ## The body filter -/

/-- The scan `for (chain = in, last = NULL; last == NULL && chain != NULL; chain = chain->next)`
with body `if (chain->buf->last_buf) last = chain;`: the first link whose buffer
has `last_buf`, given as the buffers before it, its buffer, and the buffers
after it; `none` when the loop ends with `last == NULL`. -/
def ngx_http_jsonp_scan : ngx_chain_t → Option (ngx_chain_t × ngx_buf_t × ngx_chain_t)
  | [] => none
  | b :: rest =>
    if b.last_buf then some ([], b, rest)
    else
      match ngx_http_jsonp_scan rest with
      | none => none
      | some (before, l, after) => some (b :: before, l, after)

/-- The function `ngx_http_jsonp_body_filter`. -/
def ngx_http_jsonp_body_filter (r : ngx_http_request_t) (in_ : ngx_chain_t) : body_return :=
  -- ctx = ngx_http_get_module_ctx(r, ngx_http_jsonp_filter_module);
  match r.ctx with
  | none => body_return.ngx_http_next_body_filter r in_
  | some ctx =>
    -- if (!ctx->prefix) { ... }: on success the request and the chain as they
    -- are after the block, otherwise the request at `return NGX_ERROR`
    let head : Except ngx_http_request_t (ngx_http_request_t × ngx_chain_t) :=
      if ctx.prefix_ = false then
        match ngx_calloc_buf r.pool with
        | (buf, pool1) =>
          match ngx_alloc_chain_link pool1 with
          | (chain, pool2) =>
            match buf, chain with
            | some buf, some _ =>
              -- buf->pos = (u_char *) "callback(";
              -- buf->last = buf->pos + sizeof("callback(") - 1;
              -- buf->memory = 1;
              let buf1 := { buf with pos := c_literal "callback(" }
              let buf2 := { buf1 with last := buf1.pos.add (sizeof_literal "callback(" - 1) }
              let buf3 := { buf2 with memory := true }
              -- chain->buf = buf; chain->next = in; in = chain; ctx->prefix = 1;
              Except.ok ({ r with pool := pool2, ctx := some { ctx with prefix_ := true } },
                         buf3 :: in_)
            | _, _ => Except.error { r with pool := pool2 }
      else Except.ok (r, in_)
    match head with
    | Except.error r1 => body_return.NGX_ERROR r1
    | Except.ok (r1, in1) =>
      match ngx_http_jsonp_scan in1 with
      | none => body_return.ngx_http_next_body_filter r1 in1
      | some (before, last_buf0, _) =>
        -- if (last) { ... }
        match ngx_calloc_buf r1.pool with
        | (buf, pool1) =>
          match ngx_alloc_chain_link pool1 with
          | (chain, pool2) =>
            match buf, chain with
            | some buf, some _ =>
              let r2 := { r1 with pool := pool2 }
              -- buf->pos = (u_char *) ");";
              -- buf->last = buf->pos + sizeof(");") - 1;
              -- buf->memory = 1;
              let buf1 := { buf with pos := c_literal ");" }
              let buf2 := { buf1 with last := buf1.pos.add (sizeof_literal ");" - 1) }
              let buf3 := { buf2 with memory := true }
              -- chain->buf = buf; chain->next = NULL; last->next = chain;
              -- last->buf->last_buf = 0;
              let last_buf1 := { last_buf0 with last_buf := false }
              if ngx_buf_size last_buf1 = 0 ∧ ngx_buf_special last_buf1 = false then
                -- last->buf->last_buf = 1;
                -- buf_swap = last->buf; last->buf = chain->buf; chain->buf = buf_swap;
                let last_buf2 := { last_buf1 with last_buf := true }
                body_return.ngx_http_next_body_filter r2 (before ++ [buf3, last_buf2])
              else
                -- buf->last_buf = 1;
                let buf4 := { buf3 with last_buf := true }
                body_return.ngx_http_next_body_filter r2 (before ++ [last_buf1, buf4])
            | _, _ => body_return.NGX_ERROR { r1 with pool := pool2 }

/-! ## What the module is observed through -/

/-- The bytes of an object from offset `lo` up to, not including, offset `hi`. -/
def bytes_between (l : List Char) (lo hi : Nat) : List Char :=
  (l.drop lo).take (hi - lo)

/-- The payload bytes a buffer stands for in the response body: the memory
bytes between `pos` and `last` for an in-memory buffer, else the file bytes
between `file_pos` and `file_last` for a file buffer, else nothing. -/
def payload (b : ngx_buf_t) : List Char :=
  if ngx_buf_in_memory b then bytes_between b.pos.obj b.pos.off b.last.off
  else if b.in_file then bytes_between b.file b.file_pos.toNat b.file_last.toNat
  else []

/-- The payload bytes of a chain: those of its buffers, in link order. -/
def chain_bytes : ngx_chain_t → List Char
  | [] => []
  | b :: rest => payload b ++ chain_bytes rest

/-- The segments of a body delivered as successive chains, in delivery order. -/
def all_segments : List ngx_chain_t → ngx_chain_t
  | [] => []
  | c :: rest => c ++ all_segments rest

/-- The host calling `ngx_http_jsonp_body_filter` once per delivered chain, in
order, on the same request: the request after the last call and the chains
handed to the next body filter, one per call; `none` as soon as a call returns
`NGX_ERROR`, which aborts the response. -/
def deliver (r : ngx_http_request_t) : List ngx_chain_t → Option (ngx_http_request_t × List ngx_chain_t)
  | [] => some (r, [])
  | c :: rest =>
    match ngx_http_jsonp_body_filter r c with
    | body_return.NGX_ERROR _ => none
    | body_return.ngx_http_next_body_filter r1 out =>
      match deliver r1 rest with
      | none => none
      | some (r2, outs) => some (r2, out :: outs)

/-- Every allocation still to come from the pool succeeds. -/
def pool_ample (pool : ngx_pool_t) : Prop :=
  ∀ ok ∈ pool.outcomes, ok = true

instance (pool : ngx_pool_t) : Decidable (pool_ample pool) := by
  unfold pool_ample; infer_instance

/-- The buffer the body filter builds for the literal `"callback("`. -/
def head_buf : ngx_buf_t :=
  { ngx_buf_zero with pos := c_literal "callback(",
                      last := (c_literal "callback(").add (sizeof_literal "callback(" - 1),
                      memory := true }

/-- The buffer the body filter builds for the literal `");"`, before it decides
which buffer carries `last_buf`. -/
def tail_buf : ngx_buf_t :=
  { ngx_buf_zero with pos := c_literal ");",
                      last := (c_literal ");").add (sizeof_literal ");" - 1),
                      memory := true }

/-- The `");"` buffer once `buf->last_buf = 1` has been done on it. -/
def tail_buf_final : ngx_buf_t :=
  { tail_buf with last_buf := true }

/-- A temporary in-memory buffer holding the bytes of `s`, with `last_buf` as given. -/
def data_buf (s : String) (final : Bool) : ngx_buf_t :=
  { ngx_buf_zero with pos := c_literal s, last := (c_literal s).add s.length,
                      temporary := true, last_buf := final }

/-- A request as the header filter leaves it when it wraps a response of
unknown length: context attached, `prefix` still 0. -/
def wrapped_request : ngx_http_request_t :=
  { pool := { outcomes := [] },
    loc_conf := { enable := 1 },
    ctx := some { prefix_ := false },
    headers_out := { status := 200, content_type := ngx_http_jsonp_mimetype,
                     content_type_len := 15, content_length_n := -1 },
    header_only := false }

/-- A request before the header filter has run, with `jsonp on`, status 200 and a
declared content length of 7. -/
def fresh_request : ngx_http_request_t :=
  { pool := { outcomes := [] },
    loc_conf := { enable := 1 },
    ctx := none,
    headers_out := { status := 200, content_type := ngx_string "application/json",
                     content_type_len := 16, content_length_n := 7 },
    header_only := false }

/-- A file buffer over an empty range of its file (an empty file, say), with
`last_buf` set: it is neither in memory nor special, and its size is 0. -/
def empty_file_buf : ngx_buf_t :=
  { ngx_buf_zero with in_file := true, last_buf := true }

/-- The request `fresh_request` answered by a redirect: status 302. -/
def redirect_request : ngx_http_request_t :=
  { fresh_request with headers_out := { fresh_request.headers_out with status := 302 } }

/-- The request `fresh_request` with a pool whose next allocation fails. -/
def starved_request : ngx_http_request_t :=
  { fresh_request with pool := { outcomes := [false] } }

/-- A pure end-of-stream marker: a buffer whose only flag is `last_buf`, with no
memory and no file behind it. -/
def marker_buf : ngx_buf_t :=
  { ngx_buf_zero with last_buf := true }

/-- An end-of-stream marker that also asks for a flush: `flush` and `last_buf`
set, no memory and no file behind it. -/
def flush_marker_buf : ngx_buf_t :=
  { ngx_buf_zero with flush := true, last_buf := true }

/-- A request whose context says `"callback("` has already been sent. -/
def sent_request : ngx_http_request_t :=
  { wrapped_request with ctx := some { prefix_ := true } }

/-- The chain `out` is the chain `c` itself, or `c` cut after one of its buffers
that has `last_buf` and ended by the `");"` buffer in one of the two arrangements
of the body filter; no buffer stands in front of those of `c`. -/
def passed_or_closed (c out : ngx_chain_t) : Prop :=
  out = c ∨ ∃ before l after, c = before ++ l :: after ∧ l.last_buf = true ∧
    (out = before ++ [{ l with last_buf := false }, tail_buf_final]
      ∨ out = before ++ [tail_buf, l])

/-- The first buffers of the chain handed on: the `"callback("` buffer when the
context says it has not been sent yet. -/
def head_part (ctx : ngx_http_jsonp_ctx_t) : ngx_chain_t :=
  if ctx.prefix_ = true then [] else [head_buf]

/-- The two buffers that end the chain handed on once the scan of the body
filter has stopped at the buffer `l`: the swapped pair when `l`, with `last_buf`
cleared, is empty and not special, else `l` cleared followed by the `");"` buffer
carrying `last_buf`. -/
def closing (l : ngx_buf_t) : ngx_chain_t :=
  if ngx_buf_size { l with last_buf := false } = 0
      ∧ ngx_buf_special { l with last_buf := false } = false then
    [tail_buf, { l with last_buf := true }]
  else
    [{ l with last_buf := false }, tail_buf_final]

/-- What the part of the body filter after the insertion of `"callback("` makes of
a chain when its allocations succeed. -/
def closed (c : ngx_chain_t) : ngx_chain_t :=
  match ngx_http_jsonp_scan c with
  | none => c
  | some (before, l, _) => before ++ closing l

/-! ## The body filter over memory

The same function once more, now with the chain as it lies in memory: links and
buffers are objects with addresses, a link holds the address of its buffer and
of the next link, and the filter's stores change the objects in place.  A call
has no result (`none`) when it reads through an address at which there is no
object or when its scan does not end. -/

namespace Mem

/-- A chain link (`struct ngx_chain_s`) in memory: the address of its buffer and
the address of the next link, `none` for NULL. -/
structure ngx_chain_link where
  buf : Nat
  next : Option Nat
deriving DecidableEq

/-- The buffer objects and the link objects in memory; the address of an object
is its index. -/
structure ngx_memory where
  bufs : List ngx_buf_t
  links : List ngx_chain_link
deriving DecidableEq

/-- The buffer object at address `a`. -/
def ngx_memory.buf_at (m : ngx_memory) (a : Nat) : ngx_buf_t :=
  m.bufs.getD a ngx_buf_zero

/-- The link object at address `a`. -/
def ngx_memory.link_at (m : ngx_memory) (a : Nat) : ngx_chain_link :=
  m.links.getD a { buf := 0, next := none }

/-- A store into the buffer object at address `a`. -/
def ngx_memory.set_buf (m : ngx_memory) (a : Nat) (b : ngx_buf_t) : ngx_memory :=
  { m with bufs := m.bufs.set a b }

/-- A store into the link object at address `a`. -/
def ngx_memory.set_link (m : ngx_memory) (a : Nat) (l : ngx_chain_link) : ngx_memory :=
  { m with links := m.links.set a l }

/-- The call `ngx_calloc_buf(pool)`: the address of a new zeroed buffer object,
or NULL. -/
def ngx_calloc_buf (pool : ngx_pool_t) (m : ngx_memory) :
    Option Nat × ngx_pool_t × ngx_memory :=
  match ngx_palloc pool with
  | (true, pool1) => (some m.bufs.length, pool1, { m with bufs := m.bufs ++ [ngx_buf_zero] })
  | (false, pool1) => (none, pool1, m)

/-- The call `ngx_alloc_chain_link(pool)`: the address of a new link object, whose
two fields are to be stored into before they are read, or NULL. -/
def ngx_alloc_chain_link (pool : ngx_pool_t) (m : ngx_memory) :
    Option Nat × ngx_pool_t × ngx_memory :=
  match ngx_palloc pool with
  | (true, pool1) =>
    (some m.links.length, pool1, { m with links := m.links ++ [{ buf := 0, next := none }] })
  | (false, pool1) => (none, pool1, m)

/-- How the body filter ends, with the memory as it then is. -/
inductive body_return where
  | NGX_ERROR (r : ngx_http_request_t) (m : ngx_memory)
  | ngx_http_next_body_filter (r : ngx_http_request_t) (chain : Option Nat) (m : ngx_memory)
deriving DecidableEq

/-- The scan `for (chain = in, last = NULL; last == NULL && chain != NULL; chain = chain->next)`
with body `if (chain->buf->last_buf) last = chain;`, for at most `fuel` links:
`some last` when the loop ends, `none` when it reads through an address with no
object or has not ended after `fuel` links. -/
def ngx_http_jsonp_scan : Nat → ngx_memory → Option Nat → Option (Option Nat)
  | 0, _, _ => none
  | fuel + 1, m, chain =>
    match chain with
    | none => some none
    | some a =>
      if a < m.links.length ∧ (m.link_at a).buf < m.bufs.length then
        if (m.buf_at (m.link_at a).buf).last_buf then some (some a)
        else ngx_http_jsonp_scan fuel m (m.link_at a).next
      else none

/-- The second part of `ngx_http_jsonp_body_filter` over memory, from the scan for
the last buffer to the end of the function (source lines 192-240), on the
request and the chain as the first part leaves them.  The scan is given one
step more than there are link objects, which is enough for every chain that
ends: a scan that needs more goes round a cycle of links for ever. -/
def ngx_http_jsonp_body_filter_suffix (r1 : ngx_http_request_t) (in1 : Option Nat)
    (m1 : ngx_memory) : Option body_return :=
  match ngx_http_jsonp_scan (m1.links.length + 1) m1 in1 with
  | none => none
  | some none => some (body_return.ngx_http_next_body_filter r1 in1 m1)
  | some (some last) =>
    -- if (last) { ... }
    match ngx_calloc_buf r1.pool m1 with
    | (buf, pool1, m2) =>
      match ngx_alloc_chain_link pool1 m2 with
      | (chain, pool2, m3) =>
        match buf, chain with
        | some buf, some chain =>
          let r2 := { r1 with pool := pool2 }
          -- buf->pos = (u_char *) ");";
          let m4 := m3.set_buf buf { m3.buf_at buf with pos := c_literal ");" }
          -- buf->last = buf->pos + sizeof(");") - 1;
          let m5 := m4.set_buf buf
            { m4.buf_at buf with last := (m4.buf_at buf).pos.add (sizeof_literal ");" - 1) }
          -- buf->memory = 1;
          let m6 := m5.set_buf buf { m5.buf_at buf with memory := true }
          -- chain->buf = buf;
          let m7 := m6.set_link chain { m6.link_at chain with buf := buf }
          -- chain->next = NULL;
          let m8 := m7.set_link chain { m7.link_at chain with next := none }
          -- last->next = chain;
          let m9 := m8.set_link last { m8.link_at last with next := some chain }
          -- last->buf->last_buf = 0;
          let m10 := m9.set_buf (m9.link_at last).buf
            { m9.buf_at (m9.link_at last).buf with last_buf := false }
          if ngx_buf_size (m10.buf_at (m10.link_at last).buf) = 0
              ∧ ngx_buf_special (m10.buf_at (m10.link_at last).buf) = false then
            -- last->buf->last_buf = 1;
            let m11 := m10.set_buf (m10.link_at last).buf
              { m10.buf_at (m10.link_at last).buf with last_buf := true }
            -- buf_swap = last->buf;
            let buf_swap := (m11.link_at last).buf
            -- last->buf = chain->buf;
            let m12 := m11.set_link last
              { m11.link_at last with buf := (m11.link_at chain).buf }
            -- chain->buf = buf_swap;
            let m13 := m12.set_link chain { m12.link_at chain with buf := buf_swap }
            some (body_return.ngx_http_next_body_filter r2 in1 m13)
          else
            -- buf->last_buf = 1;
            let m11 := m10.set_buf buf { m10.buf_at buf with last_buf := true }
            some (body_return.ngx_http_next_body_filter r2 in1 m11)
        | _, _ => some (body_return.NGX_ERROR { r1 with pool := pool2 } m3)

/-- The function `ngx_http_jsonp_body_filter` over memory: its first part, up to
the insertion of the `"callback("` buffer (source lines 145-190), followed by
`ngx_http_jsonp_body_filter_suffix`. -/
def ngx_http_jsonp_body_filter (r : ngx_http_request_t) (in_ : Option Nat) (m : ngx_memory) :
    Option body_return :=
  -- ctx = ngx_http_get_module_ctx(r, ngx_http_jsonp_filter_module);
  match r.ctx with
  | none => some (body_return.ngx_http_next_body_filter r in_ m)
  | some ctx =>
    -- if (!ctx->prefix) { ... }
    let head : Except (ngx_http_request_t × ngx_memory)
        (ngx_http_request_t × Option Nat × ngx_memory) :=
      if ctx.prefix_ = false then
        match ngx_calloc_buf r.pool m with
        | (buf, pool1, m1) =>
          match ngx_alloc_chain_link pool1 m1 with
          | (chain, pool2, m2) =>
            match buf, chain with
            | some buf, some chain =>
              -- buf->pos = (u_char *) "callback(";
              let m3 := m2.set_buf buf { m2.buf_at buf with pos := c_literal "callback(" }
              -- buf->last = buf->pos + sizeof("callback(") - 1;
              let m4 := m3.set_buf buf
                { m3.buf_at buf with
                  last := (m3.buf_at buf).pos.add (sizeof_literal "callback(" - 1) }
              -- buf->memory = 1;
              let m5 := m4.set_buf buf { m4.buf_at buf with memory := true }
              -- chain->buf = buf;
              let m6 := m5.set_link chain { m5.link_at chain with buf := buf }
              -- chain->next = in;
              let m7 := m6.set_link chain { m6.link_at chain with next := in_ }
              -- in = chain; ctx->prefix = 1;
              Except.ok ({ r with pool := pool2, ctx := some { ctx with prefix_ := true } },
                         some chain, m7)
            | _, _ => Except.error ({ r with pool := pool2 }, m2)
      else Except.ok (r, in_, m)
    match head with
    | Except.error (r1, m1) => some (body_return.NGX_ERROR r1 m1)
    | Except.ok (r1, in1, m1) => ngx_http_jsonp_body_filter_suffix r1 in1 m1

/-- A run of links in memory: `cells` are the addresses of the links met from `p`
on, by their `next` fields, and `q` is the `next` field of the last of them
(`p` itself when there is none); every link of the run and the buffer it points
to are objects in memory. -/
def is_path (m : ngx_memory) : Option Nat → List Nat → Option Nat → Prop
  | p, [], q => p = q
  | p, a :: rest, q =>
    p = some a ∧ a < m.links.length ∧ (m.link_at a).buf < m.bufs.length
      ∧ is_path m (m.link_at a).next rest q

/-- The links of a chain in memory: `cells` are the addresses of all the links
of the chain that starts at `p`, up to the link whose `next` is NULL. -/
def is_chain (m : ngx_memory) (p : Option Nat) (cells : List Nat) : Prop :=
  is_path m p cells none

/-- The buffer a link points to, as it is in memory. -/
def ngx_memory.buf_of (m : ngx_memory) (a : Nat) : ngx_buf_t :=
  m.buf_at (m.link_at a).buf

/-- The buffers of a chain in memory, in link order, with the values they have. -/
def chain_values (m : ngx_memory) (cells : List Nat) : ngx_chain_t :=
  cells.map (fun a => m.buf_of a)

/-- The memory after the first block of the body filter has put the `"callback("`
buffer in front of the chain that starts at `in_`. -/
def head_memory (m : ngx_memory) (in_ : Option Nat) : ngx_memory :=
  { bufs := m.bufs ++ [head_buf],
    links := m.links ++ [{ buf := m.bufs.length, next := in_ }] }

/-- The memory after the second block of the body filter has ended the chain at
the link `last`: the new `");"` buffer and the new link are the last objects; in
the swapped arrangement `last` points to the new buffer and the new link to the
buffer `last` pointed to. -/
def closed_memory (m : ngx_memory) (last : Nat) : ngx_memory :=
  if ngx_buf_size { m.buf_of last with last_buf := false } = 0
      ∧ ngx_buf_special { m.buf_of last with last_buf := false } = false then
    { bufs := m.bufs.set (m.link_at last).buf { m.buf_of last with last_buf := true }
        ++ [tail_buf],
      links := m.links.set last { buf := m.bufs.length, next := some m.links.length }
        ++ [{ buf := (m.link_at last).buf, next := none }] }
  else
    { bufs := m.bufs.set (m.link_at last).buf { m.buf_of last with last_buf := false }
        ++ [tail_buf_final],
      links := m.links.set last { buf := (m.link_at last).buf, next := some m.links.length }
        ++ [{ buf := m.bufs.length, next := none }] }

/-- The memory after the two allocations of a block of the body filter, a buffer
and then a link, of which `ok1` and `ok2` say whether they succeeded: a new
object for each that did, the other objects as they were. -/
def alloc_memory (m : ngx_memory) (ok1 ok2 : Bool) : ngx_memory :=
  { bufs := if ok1 = true then m.bufs ++ [ngx_buf_zero] else m.bufs,
    links := if ok2 = true then m.links ++ [{ buf := 0, next := none }] else m.links }

end Mem

/-- Whether the allocation made after `n` others from the pool succeeds. -/
def alloc_ok (pool : ngx_pool_t) (n : Nat) : Bool :=
  pool.outcomes.getD n true

/-- A memory holding one chain of three links, at addresses 0, 1 and 2, whose
buffers, at the same addresses, are `"x"`, an empty buffer with `last_buf`, and
`"zz"` with `last_buf`. -/
def three_link_memory : Mem.ngx_memory :=
  { bufs := [data_buf "x" false, data_buf "" true, data_buf "zz" true],
    links := [{ buf := 0, next := some 1 }, { buf := 1, next := some 2 },
              { buf := 2, next := none }] }

/-- The request `wrapped_request` with a pool whose fourth allocation fails. -/
def short_pool_request : ngx_http_request_t :=
  { wrapped_request with pool := { outcomes := [true, true, true, false] } }

/-! ## Lemmas on the pool and on the scan -/

theorem palloc_of_ample (pool : ngx_pool_t) (h : pool_ample pool) :
    ∃ pool1, ngx_palloc pool = (true, pool1) ∧ pool_ample pool1 := by
  obtain ⟨outcomes⟩ := pool
  cases outcomes with
  | nil => exact ⟨⟨[]⟩, rfl, h⟩
  | cons ok rest =>
    have hok : ok = true := h ok (by simp)
    subst hok
    refine ⟨⟨rest⟩, rfl, ?_⟩
    intro b hb
    exact h b (by simp only [List.mem_cons]; exact Or.inr hb)

theorem scan_of_no_final (c : ngx_chain_t) (h : ∀ b ∈ c, b.last_buf = false) :
    ngx_http_jsonp_scan c = none := by
  induction c with
  | nil => rfl
  | cons b rest ih =>
    have hb : b.last_buf = false := h b (by simp)
    have hrest : ∀ x ∈ rest, x.last_buf = false := fun x hx => h x (by simp [hx])
    simp [ngx_http_jsonp_scan, hb, ih hrest]

theorem scan_of_split (before : ngx_chain_t) (l : ngx_buf_t) (after : ngx_chain_t)
    (hbefore : ∀ b ∈ before, b.last_buf = false) (hl : l.last_buf = true) :
    ngx_http_jsonp_scan (before ++ l :: after) = some (before, l, after) := by
  induction before with
  | nil => simp [ngx_http_jsonp_scan, hl]
  | cons b rest ih =>
    have hb : b.last_buf = false := hbefore b (by simp)
    have hrest : ∀ x ∈ rest, x.last_buf = false := fun x hx => hbefore x (by simp [hx])
    simp [ngx_http_jsonp_scan, hb, ih hrest]

theorem scan_some_inv (c before : ngx_chain_t) (l : ngx_buf_t) (after : ngx_chain_t)
    (h : ngx_http_jsonp_scan c = some (before, l, after)) :
    c = before ++ l :: after ∧ l.last_buf = true ∧ ∀ b ∈ before, b.last_buf = false := by
  induction c generalizing before with
  | nil => simp [ngx_http_jsonp_scan] at h
  | cons b rest ih =>
    unfold ngx_http_jsonp_scan at h
    by_cases hb : b.last_buf = true
    · simp only [hb, if_true, Option.some.injEq, Prod.mk.injEq] at h
      obtain ⟨rfl, rfl, rfl⟩ := h
      exact ⟨rfl, hb, by simp⟩
    · simp only [hb] at h
      cases hs : ngx_http_jsonp_scan rest with
      | none => simp [hs] at h
      | some t =>
        obtain ⟨before1, l1, after1⟩ := t
        simp only [hs, Option.some.injEq, Prod.mk.injEq] at h
        obtain ⟨rfl, rfl, rfl⟩ := h
        obtain ⟨e1, e2, e3⟩ := ih before1 hs
        refine ⟨by rw [e1]; rfl, e2, ?_⟩
        intro x hx
        rcases List.mem_cons.mp hx with hx | hx
        · subst hx; simpa using hb
        · exact e3 x hx

theorem scan_none_inv (c : ngx_chain_t) (h : ngx_http_jsonp_scan c = none) :
    ∀ b ∈ c, b.last_buf = false := by
  induction c with
  | nil => simp
  | cons b rest ih =>
    unfold ngx_http_jsonp_scan at h
    by_cases hb : b.last_buf = true
    · simp [hb] at h
    · simp only [hb] at h
      cases hs : ngx_http_jsonp_scan rest with
      | none =>
        intro x hx
        rcases List.mem_cons.mp hx with hx | hx
        · subst hx; simpa using hb
        · exact ih hs x hx
      | some t =>
        obtain ⟨before1, l1, after1⟩ := t
        simp [hs] at h

/-! ## The body filter, path by path -/

theorem body_filter_no_ctx (r : ngx_http_request_t) (in_ : ngx_chain_t) (hctx : r.ctx = none) :
    ngx_http_jsonp_body_filter r in_ = body_return.ngx_http_next_body_filter r in_ := by
  simp [ngx_http_jsonp_body_filter, hctx]

theorem body_filter_sent_no_final (r : ngx_http_request_t) (in_ : ngx_chain_t)
    (hctx : r.ctx = some ⟨true⟩) (hscan : ngx_http_jsonp_scan in_ = none) :
    ngx_http_jsonp_body_filter r in_ = body_return.ngx_http_next_body_filter r in_ := by
  simp [ngx_http_jsonp_body_filter, hctx, hscan]

theorem body_filter_sent_final (r : ngx_http_request_t) (in_ before : ngx_chain_t)
    (l : ngx_buf_t) (after : ngx_chain_t) (ok1 ok2 : Bool) (p1 p2 : ngx_pool_t)
    (hctx : r.ctx = some ⟨true⟩) (hscan : ngx_http_jsonp_scan in_ = some (before, l, after))
    (h1 : ngx_palloc r.pool = (ok1, p1)) (h2 : ngx_palloc p1 = (ok2, p2)) :
    ngx_http_jsonp_body_filter r in_ =
      if ok1 = true ∧ ok2 = true then
        body_return.ngx_http_next_body_filter { r with pool := p2 } (before ++ closing l)
      else body_return.NGX_ERROR { r with pool := p2 } := by
  cases ok1 <;> cases ok2 <;>
    simp [ngx_http_jsonp_body_filter, hctx, hscan, ngx_calloc_buf, ngx_alloc_chain_link, h1, h2]
  unfold closing tail_buf_final tail_buf
  split <;> rfl

theorem body_filter_first (r : ngx_http_request_t) (in_ : ngx_chain_t)
    (ok1 ok2 : Bool) (p1 p2 : ngx_pool_t)
    (hctx : r.ctx = some ⟨false⟩)
    (h1 : ngx_palloc r.pool = (ok1, p1)) (h2 : ngx_palloc p1 = (ok2, p2)) :
    ngx_http_jsonp_body_filter r in_ =
      if ok1 = true ∧ ok2 = true then
        ngx_http_jsonp_body_filter { r with pool := p2, ctx := some ⟨true⟩ } (head_buf :: in_)
      else body_return.NGX_ERROR { r with pool := p2 } := by
  cases ok1 <;> cases ok2 <;>
    simp [ngx_http_jsonp_body_filter, hctx, ngx_calloc_buf, ngx_alloc_chain_link, h1, h2]
  rfl

theorem closed_of_no_final (c : ngx_chain_t) (h : ∀ b ∈ c, b.last_buf = false) :
    closed c = c := by
  simp [closed, scan_of_no_final c h]

theorem closed_of_split (before : ngx_chain_t) (l : ngx_buf_t) (after : ngx_chain_t)
    (hbefore : ∀ b ∈ before, b.last_buf = false) (hl : l.last_buf = true) :
    closed (before ++ l :: after) = before ++ closing l := by
  simp [closed, scan_of_split before l after hbefore hl]

theorem closed_head (c : ngx_chain_t) : closed (head_buf :: c) = head_buf :: closed c := by
  have hh : head_buf.last_buf = false := rfl
  unfold closed
  cases hs : ngx_http_jsonp_scan c with
  | none => simp [ngx_http_jsonp_scan, hh, hs]
  | some t =>
    obtain ⟨before, l, after⟩ := t
    simp [ngx_http_jsonp_scan, hh, hs]

theorem body_filter_sent_of_ample (r : ngx_http_request_t) (in_ : ngx_chain_t)
    (hctx : r.ctx = some ⟨true⟩) (hpool : pool_ample r.pool) :
    ∃ pool1, pool_ample pool1 ∧
      ngx_http_jsonp_body_filter r in_ =
        body_return.ngx_http_next_body_filter { r with pool := pool1 } (closed in_) := by
  cases hs : ngx_http_jsonp_scan in_ with
  | none =>
    refine ⟨r.pool, hpool, ?_⟩
    rw [body_filter_sent_no_final r in_ hctx hs]
    simp [closed, hs]
  | some t =>
    obtain ⟨before, l, after⟩ := t
    obtain ⟨p1, h1, a1⟩ := palloc_of_ample r.pool hpool
    obtain ⟨p2, h2, a2⟩ := palloc_of_ample p1 a1
    refine ⟨p2, a2, ?_⟩
    rw [body_filter_sent_final r in_ before l after true true p1 p2 hctx hs h1 h2]
    simp [closed, hs]

theorem body_filter_of_ample (r : ngx_http_request_t) (ctx : ngx_http_jsonp_ctx_t)
    (in_ : ngx_chain_t) (hctx : r.ctx = some ctx) (hpool : pool_ample r.pool) :
    ∃ pool1, pool_ample pool1 ∧
      ngx_http_jsonp_body_filter r in_ =
        body_return.ngx_http_next_body_filter { r with pool := pool1, ctx := some ⟨true⟩ }
          (head_part ctx ++ closed in_) := by
  obtain ⟨sent⟩ := ctx
  cases sent with
  | true =>
    obtain ⟨pool1, a1, e⟩ := body_filter_sent_of_ample r in_ hctx hpool
    refine ⟨pool1, a1, ?_⟩
    rw [e]
    have : ({ r with pool := pool1 } : ngx_http_request_t)
        = { r with pool := pool1, ctx := some ⟨true⟩ } := by
      cases r
      simp only [ngx_http_request_t.mk.injEq, true_and, and_true] at hctx ⊢
      exact hctx
    rw [this]
    simp [head_part]
  | false =>
    obtain ⟨p1, h1, a1⟩ := palloc_of_ample r.pool hpool
    obtain ⟨p2, h2, a2⟩ := palloc_of_ample p1 a1
    rw [body_filter_first r in_ true true p1 p2 hctx h1 h2]
    obtain ⟨pool1, a3, e⟩ := body_filter_sent_of_ample
      { r with pool := p2, ctx := some ⟨true⟩ } (head_buf :: in_) rfl a2
    refine ⟨pool1, a3, ?_⟩
    simp only [and_self, if_true]
    rw [e, closed_head]
    simp [head_part]

theorem body_filter_next_inv (r : ngx_http_request_t) (ctx : ngx_http_jsonp_ctx_t)
    (in_ : ngx_chain_t) (r1 : ngx_http_request_t) (out : ngx_chain_t)
    (hctx : r.ctx = some ctx)
    (h : ngx_http_jsonp_body_filter r in_ = body_return.ngx_http_next_body_filter r1 out) :
    out = head_part ctx ++ closed in_ ∧ r1 = { r with pool := r1.pool, ctx := some ⟨true⟩ } := by
  have sent_case : ∀ (q : ngx_http_request_t) (c : ngx_chain_t), q.ctx = some ⟨true⟩ →
      ngx_http_jsonp_body_filter q c = body_return.ngx_http_next_body_filter r1 out →
      out = closed c ∧ r1 = { q with pool := r1.pool } := by
    intro q c hq hc
    cases hs : ngx_http_jsonp_scan c with
    | none =>
      rw [body_filter_sent_no_final q c hq hs] at hc
      simp only [body_return.ngx_http_next_body_filter.injEq] at hc
      obtain ⟨rfl, rfl⟩ := hc
      simp [closed, hs]
    | some t =>
      obtain ⟨before, l, after⟩ := t
      rcases hp1 : ngx_palloc q.pool with ⟨ok1, p1⟩
      rcases hp2 : ngx_palloc p1 with ⟨ok2, p2⟩
      rw [body_filter_sent_final q c before l after ok1 ok2 p1 p2 hq hs hp1 hp2] at hc
      split at hc
      · simp only [body_return.ngx_http_next_body_filter.injEq] at hc
        obtain ⟨rfl, rfl⟩ := hc
        simp [closed, hs]
      · simp at hc
  obtain ⟨sent⟩ := ctx
  cases sent with
  | true =>
    obtain ⟨e1, e2⟩ := sent_case r in_ hctx h
    refine ⟨by simp [head_part, e1], ?_⟩
    rw [e2]
    cases r
    simp only [ngx_http_request_t.mk.injEq, true_and, and_true] at hctx ⊢
    exact hctx
  | false =>
    rcases hp1 : ngx_palloc r.pool with ⟨ok1, p1⟩
    rcases hp2 : ngx_palloc p1 with ⟨ok2, p2⟩
    rw [body_filter_first r in_ ok1 ok2 p1 p2 hctx hp1 hp2] at h
    split at h
    · obtain ⟨e1, e2⟩ := sent_case _ _ rfl h
      refine ⟨by simp [head_part, e1, closed_head], ?_⟩
      rw [e2]
    · simp at h

/-! ## Payload bytes -/

theorem payload_clear_last_buf (b : ngx_buf_t) (v : Bool) :
    payload { b with last_buf := v } = payload b := rfl

theorem size_clear_last_buf (b : ngx_buf_t) (v : Bool) :
    ngx_buf_size { b with last_buf := v } = ngx_buf_size b := rfl

theorem set_last_buf_self (b : ngx_buf_t) (h : b.last_buf = true) :
    { b with last_buf := true } = b := by
  cases b
  simp only [ngx_buf_t.mk.injEq, true_and, and_true] at h ⊢
  simp_all

theorem payload_of_size_zero (b : ngx_buf_t) (h : ngx_buf_size b = 0) : payload b = [] := by
  unfold ngx_buf_size at h
  unfold payload bytes_between
  by_cases hm : ngx_buf_in_memory b = true
  · simp only [hm, if_true, u_char_ptr.diff] at h ⊢
    have : b.last.off - b.pos.off = 0 := by omega
    simp [this]
  · rw [if_neg hm] at h
    rw [if_neg hm]
    by_cases hf : b.in_file = true
    · have : b.file_last.toNat - b.file_pos.toNat = 0 := by omega
      simp [hf, this]
    · simp [hf]

theorem payload_head_buf : payload head_buf = "callback(".toList := by decide

theorem payload_tail_buf : payload tail_buf = ");".toList := by decide

theorem payload_tail_buf_final : payload tail_buf_final = ");".toList := by decide

theorem chain_bytes_append (a b : ngx_chain_t) :
    chain_bytes (a ++ b) = chain_bytes a ++ chain_bytes b := by
  induction a with
  | nil => rfl
  | cons x rest ih => simp [chain_bytes, ih]

theorem all_segments_append (a b : List ngx_chain_t) :
    all_segments (a ++ b) = all_segments a ++ all_segments b := by
  induction a with
  | nil => rfl
  | cons x rest ih => simp [all_segments, ih]

theorem chain_bytes_closing (l : ngx_buf_t) :
    chain_bytes (closing l) = payload l ++ ");".toList := by
  unfold closing
  split
  · rename_i h
    have hz : payload l = [] := by
      have := payload_of_size_zero _ h.1
      rwa [payload_clear_last_buf] at this
    simp [chain_bytes, payload_clear_last_buf, payload_tail_buf, hz]
  · simp [chain_bytes, payload_clear_last_buf, payload_tail_buf_final]

/-! ## Successive deliveries -/

theorem deliver_sent_of_ample (cs : List ngx_chain_t) (r : ngx_http_request_t)
    (hctx : r.ctx = some ⟨true⟩) (hpool : pool_ample r.pool) :
    ∃ pool1, pool_ample pool1 ∧
      deliver r cs = some ({ r with pool := pool1 }, cs.map closed) := by
  induction cs generalizing r with
  | nil => exact ⟨r.pool, hpool, rfl⟩
  | cons c rest ih =>
    obtain ⟨p1, a1, e1⟩ := body_filter_sent_of_ample r c hctx hpool
    obtain ⟨p2, a2, e2⟩ := ih { r with pool := p1 } hctx a1
    exact ⟨p2, a2, by simp [deliver, e1, e2]⟩

theorem deliver_of_ample (c : ngx_chain_t) (cs : List ngx_chain_t) (r : ngx_http_request_t)
    (ctx : ngx_http_jsonp_ctx_t) (hctx : r.ctx = some ctx) (hpool : pool_ample r.pool) :
    ∃ pool1, pool_ample pool1 ∧
      deliver r (c :: cs) = some ({ r with pool := pool1, ctx := some ⟨true⟩ },
        (head_part ctx ++ closed c) :: cs.map closed) := by
  obtain ⟨p1, a1, e1⟩ := body_filter_of_ample r ctx c hctx hpool
  obtain ⟨p2, a2, e2⟩ := deliver_sent_of_ample cs
    { r with pool := p1, ctx := some ⟨true⟩ } rfl a1
  exact ⟨p2, a2, by simp [deliver, e1, e2]⟩

theorem all_segments_map_closed_of_no_final (cs : List ngx_chain_t)
    (h : ∀ b ∈ all_segments cs, b.last_buf = false) : cs.map closed = cs := by
  induction cs with
  | nil => rfl
  | cons c rest ih =>
    have hc : ∀ b ∈ c, b.last_buf = false := fun b hb => h b (by simp [all_segments, hb])
    have hr : ∀ b ∈ all_segments rest, b.last_buf = false :=
      fun b hb => h b (by simp [all_segments, hb])
    simp [closed_of_no_final c hc, ih hr]

theorem deliver_sent_inv (cs : List ngx_chain_t) (r r1 : ngx_http_request_t)
    (outs : List ngx_chain_t) (hctx : r.ctx = some ⟨true⟩)
    (h : deliver r cs = some (r1, outs)) :
    outs = cs.map closed ∧ r1.ctx = some ⟨true⟩ := by
  induction cs generalizing r outs with
  | nil =>
    simp only [deliver, Option.some.injEq, Prod.mk.injEq] at h
    obtain ⟨rfl, rfl⟩ := h
    exact ⟨rfl, hctx⟩
  | cons c rest ih =>
    unfold deliver at h
    cases hb : ngx_http_jsonp_body_filter r c with
    | NGX_ERROR q => simp [hb] at h
    | ngx_http_next_body_filter q out =>
      obtain ⟨hout, hq⟩ := body_filter_next_inv r ⟨true⟩ c q out hctx hb
      have hqctx : q.ctx = some ⟨true⟩ := by rw [hq]
      cases hd : deliver q rest with
      | none => simp [hb, hd] at h
      | some t =>
        obtain ⟨q2, outs2⟩ := t
        simp only [hb, hd, Option.some.injEq, Prod.mk.injEq] at h
        obtain ⟨rfl, rfl⟩ := h
        obtain ⟨e1, e2⟩ := ih q outs2 hqctx hd
        refine ⟨?_, e2⟩
        rw [hout, e1]
        simp [head_part]

theorem deliver_inv (c : ngx_chain_t) (cs : List ngx_chain_t) (r r1 : ngx_http_request_t)
    (ctx : ngx_http_jsonp_ctx_t) (outs : List ngx_chain_t) (hctx : r.ctx = some ctx)
    (h : deliver r (c :: cs) = some (r1, outs)) :
    outs = (head_part ctx ++ closed c) :: cs.map closed ∧ r1.ctx = some ⟨true⟩ := by
  unfold deliver at h
  cases hb : ngx_http_jsonp_body_filter r c with
  | NGX_ERROR q => simp [hb] at h
  | ngx_http_next_body_filter q out =>
    obtain ⟨hout, hq⟩ := body_filter_next_inv r ctx c q out hctx hb
    have hqctx : q.ctx = some ⟨true⟩ := by rw [hq]
    cases hd : deliver q cs with
    | none => simp [hb, hd] at h
    | some t =>
      obtain ⟨q2, outs2⟩ := t
      simp only [hb, hd, Option.some.injEq, Prod.mk.injEq] at h
      obtain ⟨rfl, rfl⟩ := h
      obtain ⟨e1, e2⟩ := deliver_sent_inv cs q q2 outs2 hqctx hd
      exact ⟨by rw [hout, e1], e2⟩

theorem wrapped_segments (cs0 : List ngx_chain_t) (before : ngx_chain_t) (l : ngx_buf_t)
    (c : ngx_chain_t) (rest : List ngx_chain_t)
    (hl : l.last_buf = true)
    (hbefore : ∀ b ∈ all_segments cs0 ++ before, b.last_buf = false)
    (hcs : cs0 ++ [before ++ [l]] = c :: rest) :
    all_segments ((head_part ⟨false⟩ ++ closed c) :: rest.map closed)
      = head_buf :: (all_segments cs0 ++ before ++ closing l) := by
  have h0 : ∀ b ∈ all_segments cs0, b.last_buf = false :=
    fun b hb => hbefore b (by simp [hb])
  have h1 : ∀ b ∈ before, b.last_buf = false :=
    fun b hb => hbefore b (by simp [hb])
  have hmap : (cs0 ++ [before ++ [l]]).map closed = cs0 ++ [before ++ closing l] := by
    rw [List.map_append, all_segments_map_closed_of_no_final cs0 h0]
    simp [closed_of_split before l [] h1 hl]
  have : closed c :: rest.map closed = cs0 ++ [before ++ closing l] := by
    rw [← hmap, hcs]; rfl
  simp only [head_part, all_segments, List.cons_append, List.nil_append, Bool.false_eq_true,
    if_false]
  rw [show closed c ++ all_segments (rest.map closed)
      = all_segments (closed c :: rest.map closed) from rfl, this, all_segments_append]
  simp [all_segments]

theorem delivered_segments (r : ngx_http_request_t) (cs0 : List ngx_chain_t)
    (before : ngx_chain_t) (l : ngx_buf_t)
    (hctx : r.ctx = some ⟨false⟩) (hpool : pool_ample r.pool)
    (hl : l.last_buf = true)
    (hbefore : ∀ b ∈ all_segments cs0 ++ before, b.last_buf = false) :
    ∃ r1 outs, deliver r (cs0 ++ [before ++ [l]]) = some (r1, outs) ∧
      r1.ctx = some ⟨true⟩ ∧
      all_segments outs = head_buf :: (all_segments cs0 ++ before ++ closing l) := by
  cases hcs : cs0 ++ [before ++ [l]] with
  | nil => simp at hcs
  | cons c rest =>
    obtain ⟨pool1, _, e⟩ := deliver_of_ample c rest r ⟨false⟩ hctx hpool
    exact ⟨_, _, e, rfl, wrapped_segments cs0 before l c rest hl hbefore hcs⟩

theorem delivered_segments_inv (r r1 : ngx_http_request_t) (cs0 : List ngx_chain_t)
    (before : ngx_chain_t) (l : ngx_buf_t) (outs : List ngx_chain_t)
    (hctx : r.ctx = some ⟨false⟩) (hl : l.last_buf = true)
    (hbefore : ∀ b ∈ all_segments cs0 ++ before, b.last_buf = false)
    (h : deliver r (cs0 ++ [before ++ [l]]) = some (r1, outs)) :
    all_segments outs = head_buf :: (all_segments cs0 ++ before ++ closing l) := by
  cases hcs : cs0 ++ [before ++ [l]] with
  | nil => simp at hcs
  | cons c rest =>
    rw [hcs] at h
    obtain ⟨e, _⟩ := deliver_inv c rest r r1 ⟨false⟩ outs hctx h
    rw [e]
    exact wrapped_segments cs0 before l c rest hl hbefore hcs

/-! ## The header filter, path by path -/

theorem header_filter_off (r : ngx_http_request_t)
    (hoff : ¬ (r.loc_conf.enable ≠ 0 ∧ r.headers_out.status = NGX_HTTP_OK
      ∧ r.header_only = false)) :
    ngx_http_jsonp_header_filter r = header_return.ngx_http_next_header_filter r := by
  simp only [ngx_http_jsonp_header_filter]
  rw [if_neg hoff]

theorem header_filter_on (r : ngx_http_request_t) (pool1 : ngx_pool_t)
    (hon : r.loc_conf.enable ≠ 0 ∧ r.headers_out.status = NGX_HTTP_OK ∧ r.header_only = false)
    (hp : ngx_palloc r.pool = (true, pool1)) :
    ngx_http_jsonp_header_filter r = header_return.ngx_http_next_header_filter
      { r with
        pool := pool1,
        ctx := some ⟨false⟩,
        headers_out :=
          { r.headers_out with
            content_type := ngx_http_jsonp_mimetype,
            content_type_len := 15,
            content_length_n :=
              if r.headers_out.content_length_n ≠ -1 then
                off_t_wrap (r.headers_out.content_length_n + 11)
              else r.headers_out.content_length_n } } := by
  simp only [ngx_http_jsonp_header_filter]
  rw [if_pos hon]
  simp only [ngx_pcalloc_ctx, hp]
  have hlit : ((sizeof_literal "callback();" - 1 : Nat) : Int) = 11 := by decide
  have hlen : ngx_http_jsonp_mimetype.len = 15 := by decide
  rw [hlit, hlen]
  split <;> rfl

theorem header_filter_alloc_failed (r : ngx_http_request_t) (pool1 : ngx_pool_t)
    (hon : r.loc_conf.enable ≠ 0 ∧ r.headers_out.status = NGX_HTTP_OK ∧ r.header_only = false)
    (hp : ngx_palloc r.pool = (false, pool1)) :
    ngx_http_jsonp_header_filter r = header_return.NGX_ERROR { r with pool := pool1 } := by
  simp only [ngx_http_jsonp_header_filter]
  rw [if_pos hon]
  simp only [ngx_pcalloc_ctx, hp]

/-! ## The end of the chain -/

theorem closing_plain (l : ngx_buf_t)
    (h : ¬ (ngx_buf_size { l with last_buf := false } = 0
      ∧ ngx_buf_special { l with last_buf := false } = false)) :
    closing l = [{ l with last_buf := false }, tail_buf_final] := by
  unfold closing
  rw [if_neg h]

theorem closing_swapped (l : ngx_buf_t) (hl : l.last_buf = true)
    (h : ngx_buf_size { l with last_buf := false } = 0
      ∧ ngx_buf_special { l with last_buf := false } = false) :
    closing l = [tail_buf, l] := by
  unfold closing
  rw [if_pos h, set_last_buf_self l hl]

theorem closing_cases (l : ngx_buf_t) (hl : l.last_buf = true) :
    closing l = [{ l with last_buf := false }, tail_buf_final]
      ∨ closing l = [tail_buf, l] := by
  by_cases h : ngx_buf_size { l with last_buf := false } = 0
      ∧ ngx_buf_special { l with last_buf := false } = false
  · exact Or.inr (closing_swapped l hl h)
  · exact Or.inl (closing_plain l h)

theorem special_cleared (l : ngx_buf_t) (hl : l.last_buf = true)
    (h : ngx_buf_special l = false) : ngx_buf_special { l with last_buf := false } = false := by
  unfold ngx_buf_special ngx_buf_in_memory at h ⊢
  simp only [hl, Bool.or_true, Bool.true_or, Bool.true_and] at h
  simp only [Bool.or_false]
  cases hm : (l.temporary || l.memory || l.mmap) <;> cases hf : l.in_file <;>
    simp_all

theorem passed_or_closed_closed (c : ngx_chain_t) : passed_or_closed c (closed c) := by
  unfold closed
  cases hs : ngx_http_jsonp_scan c with
  | none => exact Or.inl rfl
  | some t =>
    obtain ⟨before, l, after⟩ := t
    obtain ⟨e, hl, _⟩ := scan_some_inv c before l after hs
    refine Or.inr ⟨before, l, after, e, hl, ?_⟩
    rcases closing_cases l hl with h | h
    · exact Or.inl (by simp [h])
    · exact Or.inr (by simp [h])

theorem forall₂_map_closed (cs : List ngx_chain_t) :
    List.Forall₂ passed_or_closed cs (cs.map closed) := by
  induction cs with
  | nil => exact List.Forall₂.nil
  | cons c rest ih => exact List.Forall₂.cons (passed_or_closed_closed c) ih

theorem head_part_no_final (ctx : ngx_http_jsonp_ctx_t) :
    ∀ b ∈ head_part ctx, b.last_buf = false := by
  intro b hb
  unfold head_part at hb
  split at hb
  · simp at hb
  · simp only [List.mem_singleton] at hb
    subst hb
    rfl

theorem countP_of_no_final (c : ngx_chain_t) (h : ∀ b ∈ c, b.last_buf = false) :
    c.countP (fun b => b.last_buf) = 0 := by
  rw [List.countP_eq_zero]
  intro b hb
  simp [h b hb]

theorem closed_swapped (before : ngx_chain_t) (l : ngx_buf_t) (after : ngx_chain_t)
    (hbefore : ∀ b ∈ before, b.last_buf = false) (hl : l.last_buf = true)
    (hsize : ngx_buf_size l = 0) (hspecial : ngx_buf_special l = false) :
    closed (before ++ l :: after) = before ++ [tail_buf, l] := by
  rw [closed_of_split before l after hbefore hl,
    closing_swapped l hl ⟨by rw [size_clear_last_buf]; exact hsize, special_cleared l hl hspecial⟩]

theorem closed_plain (before : ngx_chain_t) (l : ngx_buf_t)
    (hbefore : ∀ b ∈ before, b.last_buf = false) (hl : l.last_buf = true)
    (hsize : ngx_buf_size l ≠ 0) :
    closed (before ++ [l]) = before ++ [{ l with last_buf := false }, tail_buf_final] := by
  rw [closed_of_split before l [] hbefore hl, closing_plain l ?_]
  rintro ⟨h, _⟩
  rw [size_clear_last_buf] at h
  exact hsize h

theorem body_filter_hands_on (r : ngx_http_request_t) (ctx : ngx_http_jsonp_ctx_t)
    (in_ : ngx_chain_t) (hctx : r.ctx = some ctx) (hpool : pool_ample r.pool) :
    ∃ r1 out, ngx_http_jsonp_body_filter r in_
      = body_return.ngx_http_next_body_filter r1 out := by
  obtain ⟨pool1, _, e⟩ := body_filter_of_ample r ctx in_ hctx hpool
  exact ⟨_, _, e⟩

theorem delivered_bytes_inv (r r1 : ngx_http_request_t) (cs0 : List ngx_chain_t)
    (before : ngx_chain_t) (l : ngx_buf_t) (outs : List ngx_chain_t)
    (hctx : r.ctx = some ⟨false⟩) (hl : l.last_buf = true)
    (hbefore : ∀ b ∈ all_segments cs0 ++ before, b.last_buf = false)
    (h : deliver r (cs0 ++ [before ++ [l]]) = some (r1, outs)) :
    chain_bytes (all_segments outs)
      = "callback(".toList ++ chain_bytes (all_segments (cs0 ++ [before ++ [l]]))
          ++ ");".toList := by
  rw [delivered_segments_inv r r1 cs0 before l outs hctx hl hbefore h, all_segments_append]
  simp only [chain_bytes, all_segments, chain_bytes_append, chain_bytes_closing,
    payload_head_buf, List.append_nil, List.append_assoc]

/-! ## The body filter over memory, path by path -/

theorem Mem.filter_no_ctx (r : ngx_http_request_t) (in_ : Option Nat)
    (m : Mem.ngx_memory) (hctx : r.ctx = none) :
    Mem.ngx_http_jsonp_body_filter r in_ m
      = some (Mem.body_return.ngx_http_next_body_filter r in_ m) := by
  simp [Mem.ngx_http_jsonp_body_filter, hctx]

theorem Mem.body_filter_sent (r : ngx_http_request_t) (in_ : Option Nat)
    (m : Mem.ngx_memory) (hctx : r.ctx = some ⟨true⟩) :
    Mem.ngx_http_jsonp_body_filter r in_ m
      = Mem.ngx_http_jsonp_body_filter_suffix r in_ m := by
  simp [Mem.ngx_http_jsonp_body_filter, hctx]

theorem Mem.suffix_unending (r : ngx_http_request_t) (in_ : Option Nat)
    (m : Mem.ngx_memory)
    (hscan : Mem.ngx_http_jsonp_scan (m.links.length + 1) m in_ = none) :
    Mem.ngx_http_jsonp_body_filter_suffix r in_ m = none := by
  simp [Mem.ngx_http_jsonp_body_filter_suffix, hscan]

theorem Mem.suffix_no_final (r : ngx_http_request_t) (in_ : Option Nat)
    (m : Mem.ngx_memory)
    (hscan : Mem.ngx_http_jsonp_scan (m.links.length + 1) m in_ = some none) :
    Mem.ngx_http_jsonp_body_filter_suffix r in_ m
      = some (Mem.body_return.ngx_http_next_body_filter r in_ m) := by
  simp [Mem.ngx_http_jsonp_body_filter_suffix, hscan]

theorem getD_append_fresh {α : Type} (l : List α) (x d : α) (n : Nat) (h : n = l.length) :
    (l ++ [x]).getD n d = x := by
  subst h
  simp [List.getD_eq_getElem?_getD]

theorem set_append_fresh {α : Type} (l : List α) (x y : α) (n : Nat) (h : n = l.length) :
    (l ++ [x]).set n y = l ++ [y] := by
  subst h
  simp [List.set_append]

theorem getD_append_old {α : Type} (l : List α) (x d : α) (a : Nat) (h : a < l.length) :
    (l ++ [x]).getD a d = l.getD a d :=
  List.getD_append l [x] d a h

theorem set_append_old {α : Type} (l : List α) (x y : α) (a : Nat) (h : a < l.length) :
    (l ++ [x]).set a y = l.set a y ++ [x] :=
  List.set_append_left a y h

theorem getD_set_self {α : Type} (l : List α) (y d : α) (a : Nat) (h : a < l.length) :
    (l.set a y).getD a d = y := by
  simp [List.getD_eq_getElem?_getD, h]

theorem getD_set_other {α : Type} (l : List α) (y d : α) (a b : Nat) (h : a ≠ b) :
    (l.set a y).getD b d = l.getD b d := by
  simp [List.getD_eq_getElem?_getD, List.getElem?_set_ne h]

theorem getD_set_append_self {α : Type} (l : List α) (x y d : α) (a : Nat)
    (h : a < l.length) : (l.set a y ++ [x]).getD a d = y := by
  rw [getD_append_old _ _ _ _ (by simpa using h), getD_set_self _ _ _ _ h]

theorem set_set_append {α : Type} (l : List α) (x y z : α) (a : Nat) (h : a < l.length) :
    (l.set a y ++ [x]).set a z = l.set a z ++ [x] := by
  rw [set_append_old _ _ _ _ (by simpa using h), List.set_set]

theorem getD_set_append_fresh {α : Type} (l : List α) (x y d : α) (a : Nat) :
    (l.set a y ++ [x]).getD l.length d = x :=
  getD_append_fresh _ _ _ _ (by simp)

theorem set_set_append_fresh {α : Type} (l : List α) (x y z : α) (a : Nat) :
    (l.set a y ++ [x]).set l.length z = l.set a y ++ [z] :=
  set_append_fresh _ _ _ _ (by simp)

theorem Mem.buf_at_mk (bs : List ngx_buf_t) (ls : List Mem.ngx_chain_link) (a : Nat) :
    (Mem.ngx_memory.mk bs ls).buf_at a = bs.getD a ngx_buf_zero := rfl

theorem Mem.link_at_mk (bs : List ngx_buf_t) (ls : List Mem.ngx_chain_link) (a : Nat) :
    (Mem.ngx_memory.mk bs ls).link_at a = ls.getD a { buf := 0, next := none } := rfl

theorem Mem.set_buf_mk (bs : List ngx_buf_t) (ls : List Mem.ngx_chain_link) (a : Nat)
    (b : ngx_buf_t) :
    (Mem.ngx_memory.mk bs ls).set_buf a b = Mem.ngx_memory.mk (bs.set a b) ls := rfl

theorem Mem.set_link_mk (bs : List ngx_buf_t) (ls : List Mem.ngx_chain_link) (a : Nat)
    (l : Mem.ngx_chain_link) :
    (Mem.ngx_memory.mk bs ls).set_link a l = Mem.ngx_memory.mk bs (ls.set a l) := rfl

theorem Mem.bufs_getD (m : Mem.ngx_memory) (a : Nat) :
    m.bufs.getD a ngx_buf_zero = m.buf_at a := rfl

theorem Mem.links_getD (m : Mem.ngx_memory) (a : Nat) :
    m.links.getD a { buf := 0, next := none } = m.link_at a := rfl

theorem Mem.suffix_final (r : ngx_http_request_t) (in_ : Option Nat)
    (m : Mem.ngx_memory) (last : Nat) (ok1 ok2 : Bool) (p1 p2 : ngx_pool_t)
    (hscan : Mem.ngx_http_jsonp_scan (m.links.length + 1) m in_ = some (some last))
    (hlast : last < m.links.length) (hbuf : (m.link_at last).buf < m.bufs.length)
    (h1 : ngx_palloc r.pool = (ok1, p1)) (h2 : ngx_palloc p1 = (ok2, p2)) :
    Mem.ngx_http_jsonp_body_filter_suffix r in_ m =
      if ok1 = true ∧ ok2 = true then
        some (Mem.body_return.ngx_http_next_body_filter { r with pool := p2 } in_
          (Mem.closed_memory m last))
      else some (Mem.body_return.NGX_ERROR { r with pool := p2 } (Mem.alloc_memory m ok1 ok2)) := by
  cases ok1 <;> cases ok2 <;>
    simp [Mem.ngx_http_jsonp_body_filter_suffix, hscan, Mem.ngx_calloc_buf,
      Mem.ngx_alloc_chain_link, h1, h2, Mem.alloc_memory]
  simp only [Mem.set_buf_mk, Mem.buf_at_mk, Mem.set_link_mk, Mem.link_at_mk,
    getD_append_fresh, set_append_fresh, List.length_set, List.length_append,
    getD_append_old _ _ _ _ hlast, set_append_old _ _ _ _ hlast,
    getD_set_self _ _ _ _ hlast, List.set_set,
    getD_set_append_self _ _ _ _ _ hlast, set_set_append _ _ _ _ _ hlast,
    getD_set_append_fresh, set_set_append_fresh,
    getD_append_old _ _ _ _ hbuf, set_append_old _ _ _ _ hbuf,
    getD_set_append_self _ _ _ _ _ hbuf, set_set_append _ _ _ _ _ hbuf,
    Mem.bufs_getD, Mem.links_getD]
  simp only [Mem.closed_memory, Mem.ngx_memory.buf_of]
  split <;> rfl

theorem Mem.filter_first (r : ngx_http_request_t) (in_ : Option Nat)
    (m : Mem.ngx_memory) (ok1 ok2 : Bool) (p1 p2 : ngx_pool_t)
    (hctx : r.ctx = some ⟨false⟩)
    (h1 : ngx_palloc r.pool = (ok1, p1)) (h2 : ngx_palloc p1 = (ok2, p2)) :
    Mem.ngx_http_jsonp_body_filter r in_ m =
      if ok1 = true ∧ ok2 = true then
        Mem.ngx_http_jsonp_body_filter_suffix { r with pool := p2, ctx := some ⟨true⟩ }
          (some m.links.length) (Mem.head_memory m in_)
      else some (Mem.body_return.NGX_ERROR { r with pool := p2 } (Mem.alloc_memory m ok1 ok2)) := by
  cases ok1 <;> cases ok2 <;>
    simp [Mem.ngx_http_jsonp_body_filter, hctx, Mem.ngx_calloc_buf,
      Mem.ngx_alloc_chain_link, h1, h2, Mem.alloc_memory]
  simp only [Mem.set_buf_mk, Mem.buf_at_mk, Mem.set_link_mk, Mem.link_at_mk,
    getD_append_fresh, set_append_fresh]
  rfl

/-! ## Chains in memory -/

theorem Mem.is_path_append (m : Mem.ngx_memory) (l1 l2 : List Nat) (p q : Option Nat) :
    Mem.is_path m p (l1 ++ l2) q ↔ ∃ mid, Mem.is_path m p l1 mid ∧ Mem.is_path m mid l2 q := by
  induction l1 generalizing p with
  | nil =>
    constructor
    · intro h; exact ⟨p, rfl, h⟩
    · rintro ⟨mid, h1, h2⟩
      simp only [Mem.is_path] at h1
      subst h1
      exact h2
  | cons a rest ih =>
    simp only [List.cons_append, Mem.is_path]
    constructor
    · rintro ⟨h1, h2, h3, h4⟩
      obtain ⟨mid, h5, h6⟩ := (ih _).mp h4
      exact ⟨mid, ⟨h1, h2, h3, h5⟩, h6⟩
    · rintro ⟨mid, ⟨h1, h2, h3, h5⟩, h6⟩
      exact ⟨h1, h2, h3, (ih _).mpr ⟨mid, h5, h6⟩⟩

theorem Mem.is_path_lt (m : Mem.ngx_memory) (cells : List Nat) (p q : Option Nat)
    (h : Mem.is_path m p cells q) :
    ∀ a ∈ cells, a < m.links.length ∧ (m.link_at a).buf < m.bufs.length := by
  induction cells generalizing p with
  | nil => simp
  | cons c rest ih =>
    obtain ⟨_, h2, h3, h4⟩ := h
    intro a ha
    rcases List.mem_cons.mp ha with rfl | ha
    · exact ⟨h2, h3⟩
    · exact ih _ h4 a ha

theorem Mem.is_path_congr (m m1 : Mem.ngx_memory) (cells : List Nat) (p q : Option Nat)
    (hl : m.links.length ≤ m1.links.length) (hb : m.bufs.length ≤ m1.bufs.length)
    (hsame : ∀ a ∈ cells, m1.link_at a = m.link_at a)
    (h : Mem.is_path m p cells q) : Mem.is_path m1 p cells q := by
  induction cells generalizing p with
  | nil => exact h
  | cons c rest ih =>
    obtain ⟨h1, h2, h3, h4⟩ := h
    have hc : m1.link_at c = m.link_at c := hsame c (by simp)
    refine ⟨h1, by omega, by rw [hc]; omega, ?_⟩
    rw [hc]
    exact ih _ (fun a ha => hsame a (by simp [ha])) h4

theorem Mem.chain_values_congr (m m1 : Mem.ngx_memory) (cells : List Nat)
    (hsame : ∀ a ∈ cells, m1.buf_of a = m.buf_of a) :
    Mem.chain_values m1 cells = Mem.chain_values m cells := by
  unfold Mem.chain_values
  exact List.map_congr_left hsame

theorem Mem.chain_values_append (m : Mem.ngx_memory) (l1 l2 : List Nat) :
    Mem.chain_values m (l1 ++ l2) = Mem.chain_values m l1 ++ Mem.chain_values m l2 := by
  simp [Mem.chain_values]

theorem Mem.is_chain_functional (m : Mem.ngx_memory) (l1 l2 : List Nat) (p : Option Nat)
    (h1 : Mem.is_chain m p l1) (h2 : Mem.is_chain m p l2) : l1 = l2 := by
  unfold Mem.is_chain at h1 h2
  induction l1 generalizing p l2 with
  | nil =>
    cases l2 with
    | nil => rfl
    | cons b r2 =>
      simp only [Mem.is_path] at h1
      obtain ⟨h3, _⟩ := h2
      rw [h1] at h3
      exact Option.noConfusion h3
  | cons a r1 ih =>
    obtain ⟨e1, _, _, t1⟩ := h1
    cases l2 with
    | nil =>
      simp only [Mem.is_path] at h2
      rw [h2] at e1
      exact Option.noConfusion e1
    | cons b r2 =>
      obtain ⟨e2, _, _, t2⟩ := h2
      have hab : a = b := by
        rw [e1] at e2
        exact Option.some.inj e2
      subst hab
      rw [ih _ _ t1 t2]

theorem Mem.is_chain_suffix (m : Mem.ngx_memory) (cells : List Nat) (p : Option Nat)
    (a : Nat) (h : Mem.is_chain m p cells) (ha : a ∈ cells) :
    ∃ front back, cells = front ++ a :: back ∧ Mem.is_chain m (some a) (a :: back) := by
  unfold Mem.is_chain at h ⊢
  induction cells generalizing p with
  | nil => simp at ha
  | cons c rest ih =>
    obtain ⟨h1, h2, h3, h4⟩ := h
    rcases List.mem_cons.mp ha with rfl | ha
    · exact ⟨[], rest, rfl, rfl, h2, h3, h4⟩
    · obtain ⟨front, back, e, hb⟩ := ih _ h4 ha
      exact ⟨c :: front, back, by rw [e]; rfl, hb⟩

theorem Mem.is_chain_nodup (m : Mem.ngx_memory) (cells : List Nat) (p : Option Nat)
    (h : Mem.is_chain m p cells) : cells.Nodup := by
  induction cells generalizing p with
  | nil => exact List.nodup_nil
  | cons c rest ih =>
    have h0 := h
    obtain ⟨h1, h2, h3, h4⟩ := h
    refine List.nodup_cons.mpr ⟨?_, ih _ h4⟩
    intro hc
    obtain ⟨front, back, e, hb⟩ := Mem.is_chain_suffix m rest _ c h4 hc
    have h5 : Mem.is_chain m (some c) (c :: rest) := ⟨rfl, h2, h3, h4⟩
    have e2 := Mem.is_chain_functional m _ _ _ h5 hb
    have e3 : rest = back := List.tail_eq_of_cons_eq e2
    have : rest.length = front.length + (rest.length + 1) := by
      conv_lhs => rw [e]
      rw [← e3]
      simp
    omega

theorem Mem.is_chain_length_le (m : Mem.ngx_memory) (cells : List Nat) (p : Option Nat)
    (h : Mem.is_chain m p cells) : cells.length ≤ m.links.length := by
  have hnd := Mem.is_chain_nodup m cells p h
  have hlt := Mem.is_path_lt m cells p none h
  have hsub : cells.toFinset ⊆ Finset.range m.links.length := by
    intro a ha
    rw [List.mem_toFinset] at ha
    exact Finset.mem_range.mpr (hlt a ha).1
  have := Finset.card_le_card hsub
  rw [List.toFinset_card_of_nodup hnd, Finset.card_range] at this
  exact this

theorem Mem.scan_no_final (m : Mem.ngx_memory) (cells : List Nat) (p : Option Nat)
    (fuel : Nat) (h : Mem.is_chain m p cells)
    (hno : ∀ a ∈ cells, (m.buf_of a).last_buf = false) (hfuel : cells.length < fuel) :
    Mem.ngx_http_jsonp_scan fuel m p = some none := by
  unfold Mem.is_chain at h
  induction cells generalizing p fuel with
  | nil =>
    simp only [Mem.is_path] at h
    subst h
    cases fuel with
    | zero => simp at hfuel
    | succ n => rfl
  | cons c rest ih =>
    obtain ⟨h1, h2, h3, h4⟩ := h
    subst h1
    cases fuel with
    | zero => simp at hfuel
    | succ n =>
      have hc : (m.buf_at (m.link_at c).buf).last_buf = false := hno c (by simp)
      simp only [Mem.ngx_http_jsonp_scan, h2, h3, and_self, if_true, hc, Bool.false_eq_true,
        if_false]
      exact ih _ _ h4 (fun a ha => hno a (by simp [ha])) (by simpa using hfuel)

theorem Mem.scan_final (m : Mem.ngx_memory) (before : List Nat) (a : Nat) (p q : Option Nat)
    (fuel : Nat) (h : Mem.is_path m p (before ++ [a]) q)
    (hno : ∀ c ∈ before, (m.buf_of c).last_buf = false)
    (ha : (m.buf_of a).last_buf = true) (hfuel : before.length < fuel) :
    Mem.ngx_http_jsonp_scan fuel m p = some (some a) := by
  induction before generalizing p fuel with
  | nil =>
    obtain ⟨h1, h2, h3, _⟩ := h
    subst h1
    cases fuel with
    | zero => simp at hfuel
    | succ n =>
      have hc : (m.buf_at (m.link_at a).buf).last_buf = true := ha
      simp only [Mem.ngx_http_jsonp_scan, h2, h3, and_self, if_true, hc]
  | cons c rest ih =>
    obtain ⟨h1, h2, h3, h4⟩ := h
    subst h1
    cases fuel with
    | zero => simp at hfuel
    | succ n =>
      have hc : (m.buf_at (m.link_at c).buf).last_buf = false := hno c (by simp)
      simp only [Mem.ngx_http_jsonp_scan, h2, h3, and_self, if_true, hc, Bool.false_eq_true,
        if_false]
      exact ih _ _ h4 (fun x hx => hno x (by simp [hx])) (by simpa using hfuel)

/-! ## The memory after each block -/

theorem Mem.head_memory_link_old (m : Mem.ngx_memory) (in_ : Option Nat) (a : Nat)
    (h : a < m.links.length) : (Mem.head_memory m in_).link_at a = m.link_at a := by
  simp only [Mem.head_memory, Mem.link_at_mk, getD_append_old _ _ _ _ h, Mem.links_getD]

theorem Mem.head_memory_buf_old (m : Mem.ngx_memory) (in_ : Option Nat) (b : Nat)
    (h : b < m.bufs.length) : (Mem.head_memory m in_).buf_at b = m.buf_at b := by
  simp only [Mem.head_memory, Mem.buf_at_mk, getD_append_old _ _ _ _ h, Mem.bufs_getD]

theorem Mem.head_memory_link_new (m : Mem.ngx_memory) (in_ : Option Nat) :
    (Mem.head_memory m in_).link_at m.links.length = { buf := m.bufs.length, next := in_ } := by
  simp only [Mem.head_memory, Mem.link_at_mk, getD_append_fresh]

theorem Mem.head_memory_buf_new (m : Mem.ngx_memory) (in_ : Option Nat) :
    (Mem.head_memory m in_).buf_at m.bufs.length = head_buf := by
  simp only [Mem.head_memory, Mem.buf_at_mk, getD_append_fresh]

theorem Mem.head_memory_chain (m : Mem.ngx_memory) (in_ : Option Nat) (cells : List Nat)
    (h : Mem.is_chain m in_ cells) :
    Mem.is_chain (Mem.head_memory m in_) (some m.links.length) (m.links.length :: cells)
      ∧ Mem.chain_values (Mem.head_memory m in_) (m.links.length :: cells)
          = head_buf :: Mem.chain_values m cells := by
  have hlt := Mem.is_path_lt m cells in_ none h
  have hlen1 : (Mem.head_memory m in_).links.length = m.links.length + 1 := by
    simp [Mem.head_memory]
  have hlen2 : (Mem.head_memory m in_).bufs.length = m.bufs.length + 1 := by
    simp [Mem.head_memory]
  constructor
  · refine ⟨rfl, by omega, ?_, ?_⟩
    · rw [Mem.head_memory_link_new, hlen2]
      exact Nat.lt_succ_self _
    · rw [Mem.head_memory_link_new]
      exact Mem.is_path_congr m _ cells in_ none (by omega) (by omega)
        (fun a ha => Mem.head_memory_link_old m in_ a (hlt a ha).1) h
  · show (Mem.head_memory m in_).buf_at ((Mem.head_memory m in_).link_at m.links.length).buf
        :: Mem.chain_values (Mem.head_memory m in_) cells = _
    rw [Mem.head_memory_link_new, Mem.head_memory_buf_new]
    congr 1
    apply Mem.chain_values_congr
    intro a ha
    unfold Mem.ngx_memory.buf_of
    rw [Mem.head_memory_link_old m in_ a (hlt a ha).1,
      Mem.head_memory_buf_old m in_ _ (hlt a ha).2]

theorem Mem.closed_memory_length (m : Mem.ngx_memory) (last : Nat) :
    (Mem.closed_memory m last).links.length = m.links.length + 1
      ∧ (Mem.closed_memory m last).bufs.length = m.bufs.length + 1 := by
  unfold Mem.closed_memory
  split <;> simp

theorem Mem.closed_memory_link_old (m : Mem.ngx_memory) (last a : Nat)
    (h : a < m.links.length) (hne : a ≠ last) :
    (Mem.closed_memory m last).link_at a = m.link_at a := by
  have hne2 : last ≠ a := fun e => hne e.symm
  unfold Mem.closed_memory
  split <;>
    simp only [Mem.link_at_mk, getD_append_old _ _ _ _ (show a < (m.links.set last _).length by
      simpa using h), getD_set_other _ _ _ _ _ hne2, Mem.links_getD]

theorem Mem.closed_memory_buf_old (m : Mem.ngx_memory) (last b : Nat)
    (h : b < m.bufs.length) (hne : b ≠ (m.link_at last).buf) :
    (Mem.closed_memory m last).buf_at b = m.buf_at b := by
  have hne2 : (m.link_at last).buf ≠ b := fun e => hne e.symm
  unfold Mem.closed_memory
  split <;>
    simp only [Mem.buf_at_mk, getD_append_old _ _ _ _ (show b < (m.bufs.set _ _).length by
      simpa using h), getD_set_other _ _ _ _ _ hne2, Mem.bufs_getD]

theorem Mem.closed_memory_swapped (m : Mem.ngx_memory) (last : Nat)
    (hlast : last < m.links.length) (hbuf : (m.link_at last).buf < m.bufs.length)
    (h : ngx_buf_size { m.buf_of last with last_buf := false } = 0
      ∧ ngx_buf_special { m.buf_of last with last_buf := false } = false) :
    (Mem.closed_memory m last).link_at last
        = { buf := m.bufs.length, next := some m.links.length }
      ∧ (Mem.closed_memory m last).link_at m.links.length
        = { buf := (m.link_at last).buf, next := none }
      ∧ (Mem.closed_memory m last).buf_at m.bufs.length = tail_buf
      ∧ (Mem.closed_memory m last).buf_at (m.link_at last).buf
        = { m.buf_of last with last_buf := true } := by
  unfold Mem.closed_memory
  rw [if_pos h]
  simp only [Mem.link_at_mk, Mem.buf_at_mk, getD_set_append_self _ _ _ _ _ hlast,
    getD_set_append_fresh, getD_set_append_self _ _ _ _ _ hbuf, and_self]

theorem Mem.closed_memory_plain (m : Mem.ngx_memory) (last : Nat)
    (hlast : last < m.links.length) (hbuf : (m.link_at last).buf < m.bufs.length)
    (h : ¬ (ngx_buf_size { m.buf_of last with last_buf := false } = 0
      ∧ ngx_buf_special { m.buf_of last with last_buf := false } = false)) :
    (Mem.closed_memory m last).link_at last
        = { buf := (m.link_at last).buf, next := some m.links.length }
      ∧ (Mem.closed_memory m last).link_at m.links.length
        = { buf := m.bufs.length, next := none }
      ∧ (Mem.closed_memory m last).buf_at m.bufs.length = tail_buf_final
      ∧ (Mem.closed_memory m last).buf_at (m.link_at last).buf
        = { m.buf_of last with last_buf := false } := by
  unfold Mem.closed_memory
  rw [if_neg h]
  simp only [Mem.link_at_mk, Mem.buf_at_mk, getD_set_append_self _ _ _ _ _ hlast,
    getD_set_append_fresh, getD_set_append_self _ _ _ _ _ hbuf, and_self]

theorem Mem.closed_memory_chain (m : Mem.ngx_memory) (in_ : Option Nat)
    (before : List Nat) (a : Nat) (after : List Nat)
    (h : Mem.is_chain m in_ (before ++ a :: after))
    (hno : ∀ c ∈ before, (m.buf_of c).last_buf = false)
    (ha : (m.buf_of a).last_buf = true) :
    Mem.is_chain (Mem.closed_memory m a) in_ (before ++ [a, m.links.length])
      ∧ Mem.chain_values (Mem.closed_memory m a) before = Mem.chain_values m before
      ∧ Mem.chain_values (Mem.closed_memory m a) [a, m.links.length] = closing (m.buf_of a) := by
  obtain ⟨mid, hp1, hp2⟩ := (Mem.is_path_append m before (a :: after) in_ none).mp h
  obtain ⟨hmid, hlast, hbuf, _⟩ := hp2
  subst hmid
  have hlt := Mem.is_path_lt m before in_ _ hp1
  obtain ⟨hlen1, hlen2⟩ := Mem.closed_memory_length m a
  have hne : ∀ c ∈ before, c ≠ a := by
    intro c hc e
    have := hno c hc
    rw [e, ha] at this
    exact Bool.noConfusion this
  have hneb : ∀ c ∈ before, (m.link_at c).buf ≠ (m.link_at a).buf := by
    intro c hc e
    have := hno c hc
    unfold Mem.ngx_memory.buf_of at this ha
    rw [e, ha] at this
    exact Bool.noConfusion this
  have hpath : Mem.is_path (Mem.closed_memory m a) in_ before (some a) :=
    Mem.is_path_congr m _ before in_ (some a) (by omega) (by omega)
      (fun c hc => Mem.closed_memory_link_old m a c (hlt c hc).1 (hne c hc)) hp1
  have hvals : Mem.chain_values (Mem.closed_memory m a) before = Mem.chain_values m before := by
    apply Mem.chain_values_congr
    intro c hc
    unfold Mem.ngx_memory.buf_of
    rw [Mem.closed_memory_link_old m a c (hlt c hc).1 (hne c hc),
      Mem.closed_memory_buf_old m a _ (hlt c hc).2 (hneb c hc)]
  by_cases hc : ngx_buf_size { m.buf_of a with last_buf := false } = 0
      ∧ ngx_buf_special { m.buf_of a with last_buf := false } = false
  · obtain ⟨e1, e2, e3, e4⟩ := Mem.closed_memory_swapped m a hlast hbuf hc
    refine ⟨?_, hvals, ?_⟩
    · refine (Mem.is_path_append _ before [a, m.links.length] in_ none).mpr ⟨some a, hpath, ?_⟩
      refine ⟨rfl, by omega, by rw [e1]; show m.bufs.length < _; omega, ?_⟩
      rw [e1]
      refine ⟨rfl, by omega, by rw [e2]; show (m.link_at a).buf < _; omega, ?_⟩
      rw [e2]
      rfl
    · show [(Mem.closed_memory m a).buf_at ((Mem.closed_memory m a).link_at a).buf,
        (Mem.closed_memory m a).buf_at ((Mem.closed_memory m a).link_at m.links.length).buf] = _
      rw [e1, e2]
      show [(Mem.closed_memory m a).buf_at m.bufs.length,
        (Mem.closed_memory m a).buf_at (m.link_at a).buf] = _
      rw [e3, e4]
      unfold closing
      rw [if_pos hc]
  · obtain ⟨e1, e2, e3, e4⟩ := Mem.closed_memory_plain m a hlast hbuf hc
    refine ⟨?_, hvals, ?_⟩
    · refine (Mem.is_path_append _ before [a, m.links.length] in_ none).mpr ⟨some a, hpath, ?_⟩
      refine ⟨rfl, by omega, by rw [e1]; show (m.link_at a).buf < _; omega, ?_⟩
      rw [e1]
      refine ⟨rfl, by omega, by rw [e2]; show m.bufs.length < _; omega, ?_⟩
      rw [e2]
      rfl
    · show [(Mem.closed_memory m a).buf_at ((Mem.closed_memory m a).link_at a).buf,
        (Mem.closed_memory m a).buf_at ((Mem.closed_memory m a).link_at m.links.length).buf] = _
      rw [e1, e2]
      show [(Mem.closed_memory m a).buf_at (m.link_at a).buf,
        (Mem.closed_memory m a).buf_at m.bufs.length] = _
      rw [e3, e4]
      unfold closing
      rw [if_neg hc]

/-! ## The body filter over memory, on a chain -/

theorem palloc_eq (pool : ngx_pool_t) :
    ngx_palloc pool = (alloc_ok pool 0, { outcomes := pool.outcomes.tail }) := by
  obtain ⟨outcomes⟩ := pool
  cases outcomes <;> rfl

theorem alloc_ok_tail (pool : ngx_pool_t) (n : Nat) :
    alloc_ok { outcomes := pool.outcomes.tail } n = alloc_ok pool (n + 1) := by
  obtain ⟨outcomes⟩ := pool
  cases outcomes <;> rfl

theorem exists_first (cells : List Nat) (P : Nat → Bool) (h : ∃ a ∈ cells, P a = true) :
    ∃ before a after, cells = before ++ a :: after ∧ (∀ c ∈ before, P c = false)
      ∧ P a = true := by
  induction cells with
  | nil =>
    obtain ⟨a, ha, _⟩ := h
    simp at ha
  | cons c rest ih =>
    by_cases hc : P c = true
    · exact ⟨[], c, rest, rfl, by simp, hc⟩
    · have hrest : ∃ a ∈ rest, P a = true := by
        obtain ⟨a, ha, hpa⟩ := h
        rcases List.mem_cons.mp ha with rfl | ha
        · exact absurd hpa hc
        · exact ⟨a, ha, hpa⟩
      obtain ⟨before, a, after, e, h1, h2⟩ := ih hrest
      refine ⟨c :: before, a, after, by rw [e]; rfl, ?_, h2⟩
      intro x hx
      rcases List.mem_cons.mp hx with rfl | hx
      · simpa using hc
      · exact h1 x hx

theorem Mem.scan_some_valid (fuel : Nat) (m : Mem.ngx_memory) (p : Option Nat) (last : Nat)
    (h : Mem.ngx_http_jsonp_scan fuel m p = some (some last)) :
    last < m.links.length ∧ (m.link_at last).buf < m.bufs.length := by
  induction fuel generalizing p with
  | zero => simp [Mem.ngx_http_jsonp_scan] at h
  | succ n ih =>
    cases p with
    | none => simp [Mem.ngx_http_jsonp_scan] at h
    | some a =>
      unfold Mem.ngx_http_jsonp_scan at h
      simp only at h
      split at h
      · rename_i hv
        split at h
        · simp only [Option.some.injEq] at h
          subst h
          exact hv
        · exact ih _ h
      · exact Option.noConfusion h

theorem Mem.suffix_of_no_final (r : ngx_http_request_t) (in_ : Option Nat)
    (m : Mem.ngx_memory) (cells : List Nat) (h : Mem.is_chain m in_ cells)
    (hno : ∀ a ∈ cells, (m.buf_of a).last_buf = false) :
    Mem.ngx_http_jsonp_body_filter_suffix r in_ m
      = some (Mem.body_return.ngx_http_next_body_filter r in_ m) :=
  Mem.suffix_no_final r in_ m
    (Mem.scan_no_final m cells in_ _ h hno
      (Nat.lt_succ_of_le (Mem.is_chain_length_le m cells in_ h)))

theorem Mem.suffix_of_final (r : ngx_http_request_t) (in_ : Option Nat)
    (m : Mem.ngx_memory) (before : List Nat) (a : Nat) (after : List Nat)
    (ok1 ok2 : Bool) (p1 p2 : ngx_pool_t)
    (h : Mem.is_chain m in_ (before ++ a :: after))
    (hno : ∀ c ∈ before, (m.buf_of c).last_buf = false)
    (ha : (m.buf_of a).last_buf = true)
    (h1 : ngx_palloc r.pool = (ok1, p1)) (h2 : ngx_palloc p1 = (ok2, p2)) :
    Mem.ngx_http_jsonp_body_filter_suffix r in_ m =
      if ok1 = true ∧ ok2 = true then
        some (Mem.body_return.ngx_http_next_body_filter { r with pool := p2 } in_
          (Mem.closed_memory m a))
      else some (Mem.body_return.NGX_ERROR { r with pool := p2 } (Mem.alloc_memory m ok1 ok2)) := by
  have hlen := Mem.is_chain_length_le m _ in_ h
  have hsplit : before ++ a :: after = (before ++ [a]) ++ after := by simp
  unfold Mem.is_chain at h
  rw [hsplit] at h
  obtain ⟨mid, hp, _⟩ := (Mem.is_path_append m (before ++ [a]) after in_ none).mp h
  have hv := Mem.is_path_lt m _ in_ mid hp a (by simp)
  have hscan := Mem.scan_final m before a in_ mid (m.links.length + 1) hp hno ha
    (by simp at hlen; omega)
  exact Mem.suffix_final r in_ m a ok1 ok2 p1 p2 hscan hv.1 hv.2 h1 h2

theorem Mem.alloc_memory_prefix (m : Mem.ngx_memory) (ok1 ok2 : Bool) :
    m.bufs <+: (Mem.alloc_memory m ok1 ok2).bufs
      ∧ m.links <+: (Mem.alloc_memory m ok1 ok2).links := by
  unfold Mem.alloc_memory
  cases ok1 <;> cases ok2 <;> simp

theorem Mem.head_memory_prefix (m : Mem.ngx_memory) (in_ : Option Nat) :
    m.bufs <+: (Mem.head_memory m in_).bufs ∧ m.links <+: (Mem.head_memory m in_).links := by
  unfold Mem.head_memory
  simp

theorem Mem.suffix_error_inv (r : ngx_http_request_t) (in_ : Option Nat)
    (m : Mem.ngx_memory) (r1 : ngx_http_request_t) (m1 : Mem.ngx_memory)
    (h : Mem.ngx_http_jsonp_body_filter_suffix r in_ m
      = some (Mem.body_return.NGX_ERROR r1 m1)) :
    ∃ ok1 ok2, m1 = Mem.alloc_memory m ok1 ok2 := by
  cases hs : Mem.ngx_http_jsonp_scan (m.links.length + 1) m in_ with
  | none =>
    rw [Mem.suffix_unending r in_ m hs] at h
    exact Option.noConfusion h
  | some found =>
    cases found with
    | none =>
      rw [Mem.suffix_no_final r in_ m hs] at h
      simp at h
    | some last =>
      obtain ⟨hv1, hv2⟩ := Mem.scan_some_valid _ m in_ last hs
      rcases hp1 : ngx_palloc r.pool with ⟨ok1, p1⟩
      rcases hp2 : ngx_palloc p1 with ⟨ok2, p2⟩
      rw [Mem.suffix_final r in_ m last ok1 ok2 p1 p2 hs hv1 hv2 hp1 hp2] at h
      split at h
      · simp at h
      · simp only [Option.some.injEq, Mem.body_return.NGX_ERROR.injEq] at h
        exact ⟨ok1, ok2, h.2.symm⟩

theorem Mem.body_filter_error_inv (r : ngx_http_request_t) (in_ : Option Nat)
    (m : Mem.ngx_memory) (r1 : ngx_http_request_t) (m1 : Mem.ngx_memory)
    (h : Mem.ngx_http_jsonp_body_filter r in_ m = some (Mem.body_return.NGX_ERROR r1 m1)) :
    m.bufs <+: m1.bufs ∧ m.links <+: m1.links := by
  cases hctx : r.ctx with
  | none =>
    rw [Mem.filter_no_ctx r in_ m hctx] at h
    simp at h
  | some ctx =>
    obtain ⟨sent⟩ := ctx
    cases sent with
    | true =>
      rw [Mem.body_filter_sent r in_ m hctx] at h
      obtain ⟨ok1, ok2, e⟩ := Mem.suffix_error_inv r in_ m r1 m1 h
      rw [e]
      exact Mem.alloc_memory_prefix m ok1 ok2
    | false =>
      rcases hp1 : ngx_palloc r.pool with ⟨ok1, p1⟩
      rcases hp2 : ngx_palloc p1 with ⟨ok2, p2⟩
      rw [Mem.filter_first r in_ m ok1 ok2 p1 p2 hctx hp1 hp2] at h
      split at h
      · obtain ⟨ok3, ok4, e⟩ := Mem.suffix_error_inv _ _ _ r1 m1 h
        rw [e]
        obtain ⟨a1, a2⟩ := Mem.head_memory_prefix m in_
        obtain ⟨b1, b2⟩ := Mem.alloc_memory_prefix (Mem.head_memory m in_) ok3 ok4
        exact ⟨a1.trans b1, a2.trans b2⟩
      · simp only [Option.some.injEq, Mem.body_return.NGX_ERROR.injEq] at h
        rw [← h.2]
        exact Mem.alloc_memory_prefix m ok1 ok2

theorem Mem.chain_of_prefix (m m1 : Mem.ngx_memory) (p q : Option Nat) (cells : List Nat)
    (hb : m.bufs <+: m1.bufs) (hl : m.links <+: m1.links)
    (h : Mem.is_path m p cells q) :
    Mem.is_path m1 p cells q ∧ Mem.chain_values m1 cells = Mem.chain_values m cells
      ∧ ∀ a ∈ cells, m1.link_at a = m.link_at a ∧ m1.buf_of a = m.buf_of a := by
  obtain ⟨tb, eb⟩ := hb
  obtain ⟨tl, el⟩ := hl
  have hlt := Mem.is_path_lt m cells p q h
  have hlink : ∀ a, a < m.links.length → m1.link_at a = m.link_at a := by
    intro a ha
    unfold Mem.ngx_memory.link_at
    rw [← el]
    exact List.getD_append _ _ _ _ ha
  have hbuf : ∀ b, b < m.bufs.length → m1.buf_at b = m.buf_at b := by
    intro b hb
    unfold Mem.ngx_memory.buf_at
    rw [← eb]
    exact List.getD_append _ _ _ _ hb
  have hof : ∀ a ∈ cells, m1.buf_of a = m.buf_of a := by
    intro a ha
    unfold Mem.ngx_memory.buf_of
    rw [hlink a (hlt a ha).1, hbuf _ (hlt a ha).2]
  refine ⟨?_, Mem.chain_values_congr m m1 cells hof, fun a ha => ⟨hlink a (hlt a ha).1, hof a ha⟩⟩
  exact Mem.is_path_congr m m1 cells p q (by rw [← el]; simp) (by rw [← eb]; simp)
    (fun a ha => hlink a (hlt a ha).1) h

theorem Mem.first_call_chain (m : Mem.ngx_memory) (in_ : Option Nat)
    (before : List Nat) (a : Nat) (after : List Nat)
    (h : Mem.is_chain m in_ (before ++ a :: after))
    (hno : ∀ c ∈ before, (m.buf_of c).last_buf = false) :
    Mem.is_chain (Mem.head_memory m in_) (some m.links.length)
        ((m.links.length :: before) ++ a :: after)
      ∧ (∀ c ∈ m.links.length :: before, ((Mem.head_memory m in_).buf_of c).last_buf = false)
      ∧ (Mem.head_memory m in_).buf_of a = m.buf_of a
      ∧ (Mem.head_memory m in_).link_at a = m.link_at a
      ∧ Mem.chain_values (Mem.head_memory m in_) (m.links.length :: before)
          = head_buf :: Mem.chain_values m before := by
  obtain ⟨hc, _⟩ := Mem.head_memory_chain m in_ _ h
  obtain ⟨hb, hl⟩ := Mem.head_memory_prefix m in_
  obtain ⟨_, _, hsame⟩ := Mem.chain_of_prefix m _ in_ none _ hb hl h
  have hnew : (Mem.head_memory m in_).buf_of m.links.length = head_buf := by
    unfold Mem.ngx_memory.buf_of
    rw [Mem.head_memory_link_new, Mem.head_memory_buf_new]
  refine ⟨hc, ?_, (hsame a (by simp)).2, (hsame a (by simp)).1, ?_⟩
  · intro c hc
    rcases List.mem_cons.mp hc with rfl | hc
    · rw [hnew]; rfl
    · rw [(hsame c (by simp [hc])).2]
      exact hno c hc
  · show (Mem.head_memory m in_).buf_of m.links.length
        :: Mem.chain_values (Mem.head_memory m in_) before = _
    rw [hnew]
    congr 1
    exact Mem.chain_values_congr m _ before (fun c hc => (hsame c (by simp [hc])).2)

theorem Mem.body_filter_final_inv (r : ngx_http_request_t) (ctx : ngx_http_jsonp_ctx_t)
    (in_ : Option Nat) (m : Mem.ngx_memory) (before : List Nat) (a : Nat) (after : List Nat)
    (r1 : ngx_http_request_t) (in1 : Option Nat) (m1 : Mem.ngx_memory)
    (hctx : r.ctx = some ctx)
    (hchain : Mem.is_chain m in_ (before ++ a :: after))
    (hno : ∀ c ∈ before, (m.buf_of c).last_buf = false)
    (ha : (m.buf_of a).last_buf = true)
    (h : Mem.ngx_http_jsonp_body_filter r in_ m
      = some (Mem.body_return.ngx_http_next_body_filter r1 in1 m1)) :
    ∃ m0 front,
      Mem.is_chain m0 in1 ((front ++ before) ++ a :: after)
        ∧ (∀ c ∈ front ++ before, (m0.buf_of c).last_buf = false)
        ∧ m0.buf_of a = m.buf_of a ∧ m0.link_at a = m.link_at a
        ∧ Mem.chain_values m0 (front ++ before) = head_part ctx ++ Mem.chain_values m before
        ∧ m.bufs.length ≤ m0.bufs.length ∧ m.links.length ≤ m0.links.length
        ∧ (∀ x ∈ front, m.links.length ≤ x)
        ∧ m1 = Mem.closed_memory m0 a ∧ r1.ctx = some ⟨true⟩ := by
  obtain ⟨sent⟩ := ctx
  cases sent with
  | true =>
    rcases hp1 : ngx_palloc r.pool with ⟨ok1, p1⟩
    rcases hp2 : ngx_palloc p1 with ⟨ok2, p2⟩
    rw [Mem.body_filter_sent r in_ m hctx,
      Mem.suffix_of_final r in_ m before a after ok1 ok2 p1 p2 hchain hno ha hp1 hp2] at h
    split at h
    · simp only [Option.some.injEq, Mem.body_return.ngx_http_next_body_filter.injEq] at h
      obtain ⟨e1, e2, e3⟩ := h
      subst e1 e2 e3
      exact ⟨m, [], hchain, hno, rfl, rfl, by simp [head_part], le_refl _, le_refl _,
        by simp, rfl, hctx⟩
    · simp at h
  | false =>
    rcases hp1 : ngx_palloc r.pool with ⟨ok1, p1⟩
    rcases hp2 : ngx_palloc p1 with ⟨ok2, p2⟩
    rcases hp3 : ngx_palloc p2 with ⟨ok3, p3⟩
    rcases hp4 : ngx_palloc p3 with ⟨ok4, p4⟩
    obtain ⟨hc0, hno0, hb0, hl0, hv0⟩ := Mem.first_call_chain m in_ before a after hchain hno
    rw [Mem.filter_first r in_ m ok1 ok2 p1 p2 hctx hp1 hp2] at h
    split at h
    · rw [Mem.suffix_of_final _ _ _ (m.links.length :: before) a after ok3 ok4 p3 p4 hc0 hno0
        (by rw [hb0]; exact ha) hp3 hp4] at h
      split at h
      · simp only [Option.some.injEq, Mem.body_return.ngx_http_next_body_filter.injEq] at h
        obtain ⟨e1, e2, e3⟩ := h
        subst e1 e2 e3
        refine ⟨Mem.head_memory m in_, [m.links.length], hc0, hno0, hb0, hl0, ?_, ?_, ?_, ?_,
          rfl, rfl⟩
        · rw [show [m.links.length] ++ before = m.links.length :: before from rfl, hv0]
          simp [head_part]
        · simp [Mem.head_memory]
        · simp [Mem.head_memory]
        · simp
      · simp at h
    · simp at h

theorem Mem.filter_hands_on (r : ngx_http_request_t) (ctx : ngx_http_jsonp_ctx_t)
    (in_ : Option Nat) (m : Mem.ngx_memory) (cells : List Nat)
    (hctx : r.ctx = some ctx) (hchain : Mem.is_chain m in_ cells)
    (hpool : pool_ample r.pool) :
    ∃ r1 in1 m1, Mem.ngx_http_jsonp_body_filter r in_ m
      = some (Mem.body_return.ngx_http_next_body_filter r1 in1 m1) := by
  obtain ⟨p1, hp1, a1⟩ := palloc_of_ample r.pool hpool
  obtain ⟨p2, hp2, a2⟩ := palloc_of_ample p1 a1
  obtain ⟨p3, hp3, a3⟩ := palloc_of_ample p2 a2
  obtain ⟨p4, hp4, _⟩ := palloc_of_ample p3 a3
  obtain ⟨sent⟩ := ctx
  by_cases hfinal : ∃ a ∈ cells, (m.buf_of a).last_buf = true
  · obtain ⟨before, a, after, e, hno, ha⟩ :=
      exists_first cells (fun a => (m.buf_of a).last_buf) hfinal
    subst e
    cases sent with
    | true =>
      rw [Mem.body_filter_sent r in_ m hctx,
        Mem.suffix_of_final r in_ m before a after _ _ _ _ hchain hno ha hp1 hp2]
      exact ⟨_, _, _, rfl⟩
    | false =>
      obtain ⟨hc0, hno0, hb0, _, _⟩ := Mem.first_call_chain m in_ before a after hchain hno
      rw [Mem.filter_first r in_ m _ _ _ _ hctx hp1 hp2, if_pos ⟨rfl, rfl⟩,
        Mem.suffix_of_final _ _ _ (m.links.length :: before) a after _ _ _ _ hc0 hno0
          (by rw [hb0]; exact ha) hp3 hp4]
      exact ⟨_, _, _, rfl⟩
  · have hno : ∀ a ∈ cells, (m.buf_of a).last_buf = false := by
      intro a ha
      cases hv : (m.buf_of a).last_buf with
      | false => rfl
      | true => exact absurd ⟨a, ha, hv⟩ hfinal
    cases sent with
    | true =>
      rw [Mem.body_filter_sent r in_ m hctx, Mem.suffix_of_no_final r in_ m cells hchain hno]
      exact ⟨_, _, _, rfl⟩
    | false =>
      obtain ⟨hc0, hv0⟩ := Mem.head_memory_chain m in_ cells hchain
      have hno0 : ∀ c ∈ m.links.length :: cells,
          ((Mem.head_memory m in_).buf_of c).last_buf = false := by
        intro c hc
        have hmem : (Mem.head_memory m in_).buf_of c
            ∈ Mem.chain_values (Mem.head_memory m in_) (m.links.length :: cells) :=
          List.mem_map.mpr ⟨c, hc, rfl⟩
        rw [hv0] at hmem
        rcases List.mem_cons.mp hmem with e | hmem
        · rw [e]; rfl
        · obtain ⟨x, hx, ex⟩ := List.mem_map.mp hmem
          rw [← ex]
          exact hno x hx
      rw [Mem.filter_first r in_ m _ _ _ _ hctx hp1 hp2, if_pos ⟨rfl, rfl⟩,
        Mem.suffix_of_no_final _ _ _ _ hc0 hno0]
      exact ⟨_, _, _, rfl⟩

/-! ## The two models of the body filter agree -/

theorem suffix_refines (r : ngx_http_request_t) (in_ : Option Nat)
    (m : Mem.ngx_memory) (cells : List Nat)
    (hctx : r.ctx = some ⟨true⟩) (hchain : Mem.is_chain m in_ cells) :
    (∃ r1 m1, Mem.ngx_http_jsonp_body_filter_suffix r in_ m
        = some (Mem.body_return.NGX_ERROR r1 m1)
      ∧ ngx_http_jsonp_body_filter r (Mem.chain_values m cells) = body_return.NGX_ERROR r1) ∨
    (∃ r1 in1 m1 cells1, Mem.ngx_http_jsonp_body_filter_suffix r in_ m
        = some (Mem.body_return.ngx_http_next_body_filter r1 in1 m1)
      ∧ Mem.is_chain m1 in1 cells1
      ∧ ngx_http_jsonp_body_filter r (Mem.chain_values m cells)
          = body_return.ngx_http_next_body_filter r1 (Mem.chain_values m1 cells1)) := by
  by_cases hfinal : ∃ a ∈ cells, (m.buf_of a).last_buf = true
  · obtain ⟨before, a, after, e, hno, ha⟩ :=
      exists_first cells (fun a => (m.buf_of a).last_buf) hfinal
    subst e
    have hp1 := palloc_eq r.pool
    have hp2 := palloc_eq { outcomes := r.pool.outcomes.tail }
    have hv : Mem.chain_values m (before ++ a :: after)
        = Mem.chain_values m before ++ m.buf_of a :: Mem.chain_values m after := by
      simp [Mem.chain_values]
    have hnov : ∀ b ∈ Mem.chain_values m before, b.last_buf = false := by
      intro b hb
      obtain ⟨c, hc, rfl⟩ := List.mem_map.mp hb
      exact hno c hc
    have hscan := scan_of_split (Mem.chain_values m before) (m.buf_of a)
      (Mem.chain_values m after) hnov ha
    rw [← hv] at hscan
    rw [Mem.suffix_of_final r in_ m before a after _ _ _ _ hchain hno ha hp1 hp2,
      body_filter_sent_final r _ _ _ _ _ _ _ _ hctx hscan hp1 hp2]
    by_cases hok : alloc_ok r.pool 0 = true
        ∧ alloc_ok { outcomes := r.pool.outcomes.tail } 0 = true
    · rw [if_pos hok, if_pos hok]
      obtain ⟨k1, k2, k3⟩ := Mem.closed_memory_chain m in_ before a after hchain hno ha
      refine Or.inr ⟨_, _, _, _, rfl, k1, ?_⟩
      rw [Mem.chain_values_append, k2, k3]
    · rw [if_neg hok, if_neg hok]
      exact Or.inl ⟨_, _, rfl, rfl⟩
  · have hno : ∀ a ∈ cells, (m.buf_of a).last_buf = false := by
      intro a ha
      cases h : (m.buf_of a).last_buf with
      | false => rfl
      | true => exact absurd ⟨a, ha, h⟩ hfinal
    have hnov : ∀ b ∈ Mem.chain_values m cells, b.last_buf = false := by
      intro b hb
      obtain ⟨c, hc, rfl⟩ := List.mem_map.mp hb
      exact hno c hc
    rw [Mem.suffix_of_no_final r in_ m cells hchain hno,
      body_filter_sent_no_final r _ hctx (scan_of_no_final _ hnov)]
    exact Or.inr ⟨_, _, _, cells, rfl, hchain, rfl⟩

/-- The body filter over memory and the body filter over chains of buffer
values agree: on a well-formed chain in memory the first returns, and it
returns `NGX_ERROR` exactly when the second does on the values of the chain,
with the same request; else both hand on the same request and the chain handed
on in memory is well formed and has the values the second hands on. -/
theorem body_filter_refines (r : ngx_http_request_t) (in_ : Option Nat)
    (m : Mem.ngx_memory) (cells : List Nat) (hchain : Mem.is_chain m in_ cells) :
    (∃ r1 m1, Mem.ngx_http_jsonp_body_filter r in_ m
        = some (Mem.body_return.NGX_ERROR r1 m1)
      ∧ ngx_http_jsonp_body_filter r (Mem.chain_values m cells) = body_return.NGX_ERROR r1) ∨
    (∃ r1 in1 m1 cells1, Mem.ngx_http_jsonp_body_filter r in_ m
        = some (Mem.body_return.ngx_http_next_body_filter r1 in1 m1)
      ∧ Mem.is_chain m1 in1 cells1
      ∧ ngx_http_jsonp_body_filter r (Mem.chain_values m cells)
          = body_return.ngx_http_next_body_filter r1 (Mem.chain_values m1 cells1)) := by
  cases hctx : r.ctx with
  | none =>
    rw [Mem.filter_no_ctx r in_ m hctx, body_filter_no_ctx r _ hctx]
    exact Or.inr ⟨_, _, _, cells, rfl, hchain, rfl⟩
  | some ctx =>
    obtain ⟨sent⟩ := ctx
    cases sent with
    | true =>
      rw [Mem.body_filter_sent r in_ m hctx]
      exact suffix_refines r in_ m cells hctx hchain
    | false =>
      have hp1 := palloc_eq r.pool
      have hp2 := palloc_eq { outcomes := r.pool.outcomes.tail }
      rw [Mem.filter_first r in_ m _ _ _ _ hctx hp1 hp2,
        body_filter_first r _ _ _ _ _ hctx hp1 hp2]
      by_cases hok : alloc_ok r.pool 0 = true
          ∧ alloc_ok { outcomes := r.pool.outcomes.tail } 0 = true
      · rw [if_pos hok, if_pos hok]
        obtain ⟨hc, hv⟩ := Mem.head_memory_chain m in_ cells hchain
        rw [← hv]
        exact suffix_refines _ _ _ _ rfl hc
      · rw [if_neg hok, if_neg hok]
        exact Or.inl ⟨_, _, rfl, rfl⟩

/-! ## The claims -/

/-- C1. End-to-end body wrapping: on a request with the context attached and
`prefix` 0, for a body delivered as one or more chains of which the only buffer
with `last_buf` is the last buffer of the last chain, and with every allocation
succeeding, every call of the body filter hands a chain to the next filter and
the payload bytes of all buffers handed on, in order, are `callback(` followed
by the payload bytes of all input buffers followed by `);`.  Hence any other
delivery of the same body bytes, split differently, gives the same output
bytes. -/
theorem C1_body_wrapped (r : ngx_http_request_t) (cs0 : List ngx_chain_t)
    (before : ngx_chain_t) (l : ngx_buf_t)
    (hctx : r.ctx = some ⟨false⟩) (hpool : pool_ample r.pool)
    (hl : l.last_buf = true)
    (hbefore : ∀ b ∈ all_segments cs0 ++ before, b.last_buf = false) :
    ∃ r1 outs, deliver r (cs0 ++ [before ++ [l]]) = some (r1, outs) ∧
      chain_bytes (all_segments outs)
        = "callback(".toList ++ chain_bytes (all_segments (cs0 ++ [before ++ [l]]))
            ++ ");".toList ∧
      ∀ (r2 : ngx_http_request_t) (ds0 : List ngx_chain_t) (before2 : ngx_chain_t)
        (l2 : ngx_buf_t),
        r2.ctx = some ⟨false⟩ → pool_ample r2.pool → l2.last_buf = true →
        (∀ b ∈ all_segments ds0 ++ before2, b.last_buf = false) →
        chain_bytes (all_segments (ds0 ++ [before2 ++ [l2]]))
          = chain_bytes (all_segments (cs0 ++ [before ++ [l]])) →
        ∃ r3 outs2, deliver r2 (ds0 ++ [before2 ++ [l2]]) = some (r3, outs2) ∧
          chain_bytes (all_segments outs2) = chain_bytes (all_segments outs) := by
  have key : ∀ (q : ngx_http_request_t) (ds0 : List ngx_chain_t) (bf : ngx_chain_t)
      (m : ngx_buf_t), q.ctx = some ⟨false⟩ → pool_ample q.pool → m.last_buf = true →
      (∀ b ∈ all_segments ds0 ++ bf, b.last_buf = false) →
      ∃ q1 outs, deliver q (ds0 ++ [bf ++ [m]]) = some (q1, outs) ∧
        chain_bytes (all_segments outs)
          = "callback(".toList ++ chain_bytes (all_segments (ds0 ++ [bf ++ [m]]))
              ++ ");".toList := by
    intro q ds0 bf m hq hp hm hb
    obtain ⟨q1, outs, e, _, hsegs⟩ := delivered_segments q ds0 bf m hq hp hm hb
    refine ⟨q1, outs, e, ?_⟩
    rw [hsegs, all_segments_append]
    simp only [chain_bytes, all_segments, chain_bytes_append, chain_bytes_closing,
      payload_head_buf, List.append_nil, List.append_assoc]
  obtain ⟨r1, outs, e, hbytes⟩ := key r cs0 before l hctx hpool hl hbefore
  refine ⟨r1, outs, e, hbytes, ?_⟩
  intro r2 ds0 before2 l2 h2 hp2 hl2 hb2 hsame
  obtain ⟨r3, outs2, e2, hbytes2⟩ := key r2 ds0 before2 l2 h2 hp2 hl2 hb2
  exact ⟨r3, outs2, e2, by rw [hbytes2, hbytes, hsame]⟩

/-- C1, at the body `{"a":1}` delivered in two chains, the second ending in the
final buffer: the bytes handed on are `callback({"a":1});`. -/
theorem C1_body_wrapped_witness :
    wrapped_request.ctx = some ⟨false⟩ ∧ pool_ample wrapped_request.pool ∧
    ∃ r1 outs,
      deliver wrapped_request ([[data_buf "\x7b\"a\"" false]] ++ [[] ++ [data_buf ":1\x7d" true]])
        = some (r1, outs) ∧
      chain_bytes (all_segments outs) = "callback(\x7b\"a\":1\x7d);".toList := by
  refine ⟨rfl, by decide, ?_⟩
  obtain ⟨r1, outs, e, hbytes, _⟩ :=
    C1_body_wrapped wrapped_request [[data_buf "\x7b\"a\"" false]] [] (data_buf ":1\x7d" true)
      rfl (by decide) rfl (by decide)
  exact ⟨r1, outs, e, by rw [hbytes]; decide⟩

/-- C2. Pass-through: when `enable` is 0, or the status is not 200, or
`header_only` is set, the header filter calls the next header filter with the
request exactly as it received it (content type, its length, the content length
and the context slot included, so no context is attached); and on a request
with no context the body filter calls the next body filter with the request and
the input chain exactly as received. -/
theorem C2_pass_through (r rb : ngx_http_request_t) (in_ : ngx_chain_t)
    (hoff : r.loc_conf.enable = 0 ∨ r.headers_out.status ≠ 200 ∨ r.header_only = true)
    (hnone : rb.ctx = none) :
    ngx_http_jsonp_header_filter r = header_return.ngx_http_next_header_filter r ∧
    ngx_http_jsonp_body_filter rb in_ = body_return.ngx_http_next_body_filter rb in_ := by
  refine ⟨header_filter_off r ?_, body_filter_no_ctx rb in_ hnone⟩
  rintro ⟨h1, h2, h3⟩
  rcases hoff with h | h | h
  · exact h1 h
  · exact h h2
  · rw [h3] at h; exact Bool.noConfusion h

/-- C2, at a redirect (status 302) with `jsonp on`: headers and context are left
as they were, and the body chain is handed on as received. -/
theorem C2_pass_through_witness :
    redirect_request.loc_conf.enable = 1 ∧ redirect_request.headers_out.status = 302 ∧
    ngx_http_jsonp_header_filter redirect_request
      = header_return.ngx_http_next_header_filter redirect_request ∧
    ngx_http_jsonp_body_filter redirect_request [data_buf "moved" true]
      = body_return.ngx_http_next_body_filter redirect_request [data_buf "moved" true] :=
  ⟨rfl, rfl, C2_pass_through redirect_request redirect_request [data_buf "moved" true]
    (Or.inr (Or.inl (by decide))) rfl⟩

/-- C3. Applicability of wrapping: on a request whose context slot is still
empty and whose context allocation succeeds, the header filter calls the next
header filter, and the request it passes has a context with `prefix` 0 and the
content type `text/javascript` of length 15 if and only if `enable` is non-zero,
the status is 200 and `header_only` is not set. -/
theorem C3_wrapping_applies_iff (r : ngx_http_request_t)
    (hfresh : r.ctx = none) (halloc : (ngx_palloc r.pool).1 = true) :
    ∃ r1, ngx_http_jsonp_header_filter r = header_return.ngx_http_next_header_filter r1 ∧
      ((r1.ctx = some ⟨false⟩ ∧ r1.headers_out.content_type = ngx_string "text/javascript"
          ∧ r1.headers_out.content_type_len = 15)
        ↔ (r.loc_conf.enable ≠ 0 ∧ r.headers_out.status = 200 ∧ r.header_only = false)) := by
  by_cases hc : r.loc_conf.enable ≠ 0 ∧ r.headers_out.status = NGX_HTTP_OK ∧ r.header_only = false
  · rcases hp : ngx_palloc r.pool with ⟨ok, pool1⟩
    rw [hp] at halloc
    simp only at halloc
    subst halloc
    exact ⟨_, header_filter_on r pool1 hc hp, fun _ => hc, fun _ => ⟨rfl, rfl, rfl⟩⟩
  · refine ⟨r, header_filter_off r hc, ?_, fun h => absurd h hc⟩
    intro h
    rw [hfresh] at h
    exact absurd h.1 (by simp)

/-- C3, at a request with `jsonp on`, status 200 and a body: the context is
attached with `prefix` 0 and the content type is `text/javascript`. -/
theorem C3_wrapping_applies_iff_witness :
    fresh_request.ctx = none ∧ (ngx_palloc fresh_request.pool).1 = true ∧
    ∃ r1, ngx_http_jsonp_header_filter fresh_request
        = header_return.ngx_http_next_header_filter r1 ∧
      ((r1.ctx = some ⟨false⟩ ∧ r1.headers_out.content_type = ngx_string "text/javascript"
          ∧ r1.headers_out.content_type_len = 15)
        ↔ (fresh_request.loc_conf.enable ≠ 0 ∧ fresh_request.headers_out.status = 200
            ∧ fresh_request.header_only = false)) :=
  ⟨rfl, rfl, C3_wrapping_applies_iff fresh_request rfl rfl⟩

/-- C4. Content-length rewrite: when the header filter applies wrapping (`enable`
non-zero, status 200, `header_only` not set, context allocated), a content
length `L` other than -1 becomes `L + 11` and a content length of -1 stays -1;
`L` and `L + 11` are `off_t` values. -/
theorem C4_content_length (r : ngx_http_request_t)
    (hon : r.loc_conf.enable ≠ 0 ∧ r.headers_out.status = 200 ∧ r.header_only = false)
    (halloc : (ngx_palloc r.pool).1 = true)
    (hlo : -2 ^ 63 ≤ r.headers_out.content_length_n)
    (hhi : r.headers_out.content_length_n + 11 < 2 ^ 63) :
    ∃ r1, ngx_http_jsonp_header_filter r = header_return.ngx_http_next_header_filter r1 ∧
      (r.headers_out.content_length_n ≠ -1 →
        r1.headers_out.content_length_n = r.headers_out.content_length_n + 11) ∧
      (r.headers_out.content_length_n = -1 → r1.headers_out.content_length_n = -1) := by
  rcases hp : ngx_palloc r.pool with ⟨ok, pool1⟩
  rw [hp] at halloc
  simp only at halloc
  subst halloc
  refine ⟨_, header_filter_on r pool1 hon hp, ?_, ?_⟩
  · intro hne
    simp only [hne, ne_eq, not_false_eq_true, if_true]
    unfold off_t_wrap
    omega
  · intro heq
    simp [heq]

/-- C4, at a declared content length of 7: it becomes 18. -/
theorem C4_content_length_witness :
    ∃ r1, ngx_http_jsonp_header_filter fresh_request
        = header_return.ngx_http_next_header_filter r1 ∧
      r1.headers_out.content_length_n = 18 := by
  obtain ⟨r1, e, h, _⟩ := C4_content_length fresh_request
    ⟨by decide, rfl, rfl⟩ rfl (by decide) (by decide)
  exact ⟨r1, e, h (by decide)⟩

/-- C5. Unique, terminal final marker: for every call of the body filter with a
context present and an input chain that holds a buffer with `last_buf`, the
chain handed to the next filter (one is handed whenever the allocations
succeed) holds exactly one buffer with `last_buf` set, and that buffer is the
last of the chain. -/
theorem C5_unique_final (r : ngx_http_request_t) (ctx : ngx_http_jsonp_ctx_t)
    (in_ : ngx_chain_t) (hctx : r.ctx = some ctx)
    (hfinal : ∃ b ∈ in_, b.last_buf = true) :
    (pool_ample r.pool →
      ∃ r1 out, ngx_http_jsonp_body_filter r in_
        = body_return.ngx_http_next_body_filter r1 out) ∧
    ∀ r1 out, ngx_http_jsonp_body_filter r in_
        = body_return.ngx_http_next_body_filter r1 out →
      out.countP (fun b => b.last_buf) = 1 ∧
      ∃ front l, out = front ++ [l] ∧ l.last_buf = true := by
  constructor
  · intro hpool
    obtain ⟨pool1, _, e⟩ := body_filter_of_ample r ctx in_ hctx hpool
    exact ⟨_, _, e⟩
  · intro r1 out h
    obtain ⟨hout, _⟩ := body_filter_next_inv r ctx in_ r1 out hctx h
    cases hs : ngx_http_jsonp_scan in_ with
    | none =>
      obtain ⟨b, hb, hbl⟩ := hfinal
      have := scan_none_inv in_ hs b hb
      rw [hbl] at this
      exact Bool.noConfusion this
    | some t =>
      obtain ⟨before, l, after⟩ := t
      obtain ⟨_, hl, hbefore⟩ := scan_some_inv in_ before l after hs
      have hclosed : closed in_ = before ++ closing l := by simp [closed, hs]
      have hfront : ∀ b ∈ head_part ctx ++ before, b.last_buf = false := by
        intro b hb
        rcases List.mem_append.mp hb with hb | hb
        · exact head_part_no_final ctx b hb
        · exact hbefore b hb
      have htail : tail_buf.last_buf = false := rfl
      have hfin : tail_buf_final.last_buf = true := rfl
      rw [hout, hclosed, ← List.append_assoc]
      rcases closing_cases l hl with hc | hc
      · rw [hc]
        refine ⟨?_, (head_part ctx ++ before) ++ [{ l with last_buf := false }],
          tail_buf_final, by simp, rfl⟩
        rw [List.countP_append, countP_of_no_final _ hfront]
        simp [List.countP_cons, hfin]
      · rw [hc]
        refine ⟨?_, (head_part ctx ++ before) ++ [tail_buf], l, by simp, hl⟩
        rw [List.countP_append, countP_of_no_final _ hfront]
        simp [List.countP_cons, htail, hl]

/-- C5, at a chain whose two buffers both have `last_buf`, on a request whose
`"callback("` is still to be sent. -/
theorem C5_unique_final_witness :
    ∃ r1 out, ngx_http_jsonp_body_filter wrapped_request
          [data_buf "a" true, data_buf "b" true]
        = body_return.ngx_http_next_body_filter r1 out ∧
      out.countP (fun b => b.last_buf) = 1 ∧
      ∃ front l, out = front ++ [l] ∧ l.last_buf = true := by
  obtain ⟨h1, h2⟩ := C5_unique_final wrapped_request ⟨false⟩
    [data_buf "a" true, data_buf "b" true] rfl ⟨data_buf "a" true, by simp, rfl⟩
  obtain ⟨r1, out, e⟩ := h1 (by decide)
  exact ⟨r1, out, e, h2 r1 out e⟩

/-- C6. Prefix exactly once: on a request with the context attached and `prefix`
0, with every allocation succeeding, the first call of the body filter (its
chain may be empty) hands on the `"callback("` buffer (`memory` 1, `last_buf` 0)
followed by its input chain as the rest of the filter leaves it, which is the
input chain itself when it holds no buffer with `last_buf`; `prefix` is 1 after
that call; and each of any number of later calls hands on its input chain,
passed or closed, with no buffer put in front, `prefix` staying 1. -/
theorem C6_head_once (r : ngx_http_request_t) (c : ngx_chain_t) (cs : List ngx_chain_t)
    (hctx : r.ctx = some ⟨false⟩) (hpool : pool_ample r.pool) :
    ∃ r1 out1 r2 outs,
      ngx_http_jsonp_body_filter r c
        = body_return.ngx_http_next_body_filter r1 (head_buf :: out1) ∧
      payload head_buf = "callback(".toList ∧ head_buf.memory = true ∧
      head_buf.last_buf = false ∧
      passed_or_closed c out1 ∧ ((∀ b ∈ c, b.last_buf = false) → out1 = c) ∧
      r1.ctx = some ⟨true⟩ ∧
      deliver r1 cs = some (r2, outs) ∧
      deliver r (c :: cs) = some (r2, (head_buf :: out1) :: outs) ∧
      r2.ctx = some ⟨true⟩ ∧ List.Forall₂ passed_or_closed cs outs := by
  obtain ⟨p1, a1, e1⟩ := body_filter_of_ample r ⟨false⟩ c hctx hpool
  obtain ⟨p2, a2, e2⟩ := deliver_sent_of_ample cs
    { r with pool := p1, ctx := some ⟨true⟩ } rfl a1
  refine ⟨_, closed c, _, _, e1, payload_head_buf, rfl, rfl, passed_or_closed_closed c,
    closed_of_no_final c, rfl, e2, ?_, rfl, forall₂_map_closed cs⟩
  simp only [deliver, e1, e2]
  rfl

/-- C6, at three calls: an empty chain, a chain of one data buffer, and the
chain with the final buffer. -/
theorem C6_head_once_witness :
    ∃ r1 out1 r2 outs,
      ngx_http_jsonp_body_filter wrapped_request []
        = body_return.ngx_http_next_body_filter r1 (head_buf :: out1) ∧
      payload head_buf = "callback(".toList ∧ head_buf.memory = true ∧
      head_buf.last_buf = false ∧
      passed_or_closed [] out1 ∧
      ((∀ b ∈ ([] : ngx_chain_t), b.last_buf = false) → out1 = []) ∧
      r1.ctx = some ⟨true⟩ ∧
      deliver r1 [[data_buf "1" false], [data_buf "2" true]] = some (r2, outs) ∧
      deliver wrapped_request ([] :: [[data_buf "1" false], [data_buf "2" true]])
        = some (r2, (head_buf :: out1) :: outs) ∧
      r2.ctx = some ⟨true⟩ ∧
      List.Forall₂ passed_or_closed [[data_buf "1" false], [data_buf "2" true]] outs :=
  C6_head_once wrapped_request [] [[data_buf "1" false], [data_buf "2" true]] rfl (by decide)

/-- C7. Suffix placement, ordinary case: for a call of the body filter with a
context present, on a chain whose last buffer `l` is the only one with
`last_buf` and has a size other than 0, the chain handed on (one is handed on
whenever the allocations succeed) is the `"callback("` buffer if it was still to
be sent, then the buffers before `l` as they were, then `l` with `last_buf`
cleared and nothing else changed, then one new buffer with the 2 payload bytes
`);`, `memory` 1 and `last_buf` 1. -/
theorem C7_suffix_placement (r : ngx_http_request_t) (ctx : ngx_http_jsonp_ctx_t)
    (before : ngx_chain_t) (l : ngx_buf_t)
    (hctx : r.ctx = some ctx)
    (hbefore : ∀ b ∈ before, b.last_buf = false) (hl : l.last_buf = true)
    (hsize : ngx_buf_size l ≠ 0) :
    (pool_ample r.pool →
      ∃ r1 out, ngx_http_jsonp_body_filter r (before ++ [l])
        = body_return.ngx_http_next_body_filter r1 out) ∧
    (∀ r1 out, ngx_http_jsonp_body_filter r (before ++ [l])
        = body_return.ngx_http_next_body_filter r1 out →
      out = head_part ctx ++ before ++ [{ l with last_buf := false }, tail_buf_final]) ∧
    payload tail_buf_final = ");".toList ∧ ngx_buf_size tail_buf_final = 2 ∧
    tail_buf_final.memory = true ∧ tail_buf_final.last_buf = true := by
  refine ⟨body_filter_hands_on r ctx _ hctx, ?_, by decide, by decide, rfl, rfl⟩
  intro r1 out h
  obtain ⟨hout, _⟩ := body_filter_next_inv r ctx _ r1 out hctx h
  rw [hout, closed_plain before l hbefore hl hsize, List.append_assoc]

/-- C7, at the first and only chain `["{"a":1}" final]`: the chain handed on is
`["callback(", "{"a":1}", ");"]`, with `last_buf` on the `");"` buffer only. -/
theorem C7_suffix_placement_witness :
    ngx_buf_size (data_buf "\x7b\"a\":1\x7d" true) = 7 ∧
    (∃ r1, ngx_http_jsonp_body_filter wrapped_request [data_buf "\x7b\"a\":1\x7d" true]
      = body_return.ngx_http_next_body_filter r1
          [head_buf, data_buf "\x7b\"a\":1\x7d" false, tail_buf_final]) ∧
    [head_buf, data_buf "\x7b\"a\":1\x7d" false, tail_buf_final].map payload
      = ["callback(".toList, "\x7b\"a\":1\x7d".toList, ");".toList] ∧
    [head_buf, data_buf "\x7b\"a\":1\x7d" false, tail_buf_final].map (fun b => b.last_buf)
      = [false, false, true] := by
  refine ⟨by decide, ?_, by decide, by decide⟩
  obtain ⟨h1, h2, _⟩ := C7_suffix_placement wrapped_request ⟨false⟩ []
    (data_buf "\x7b\"a\":1\x7d" true) rfl (by simp) rfl (by decide)
  obtain ⟨r1, out, e⟩ := h1 (by decide)
  have hout := h2 r1 out e
  rw [hout] at e
  exact ⟨r1, e⟩

/-- C8. Segment order and insertion count: on a request with the context
attached and `prefix` 0, for a body delivered as chains of which the only buffer
with `last_buf` is the last buffer `l` of the last chain, the buffers handed on
over all calls (every call hands a chain on whenever the allocations succeed)
are, in order: the `"callback("` buffer, the input buffers before `l` unchanged
and in their order, and then either `l` with only `last_buf` cleared followed by
the `");"` buffer, or the `");"` buffer followed by `l` unchanged; nothing else. -/
theorem C8_segment_order (r : ngx_http_request_t) (cs0 : List ngx_chain_t)
    (before : ngx_chain_t) (l : ngx_buf_t)
    (hctx : r.ctx = some ⟨false⟩) (hl : l.last_buf = true)
    (hbefore : ∀ b ∈ all_segments cs0 ++ before, b.last_buf = false) :
    (pool_ample r.pool →
      ∃ r1 outs, deliver r (cs0 ++ [before ++ [l]]) = some (r1, outs)) ∧
    (∀ r1 outs, deliver r (cs0 ++ [before ++ [l]]) = some (r1, outs) →
      (all_segments outs
          = [head_buf] ++ (all_segments cs0 ++ before)
              ++ [{ l with last_buf := false }, tail_buf_final]
        ∨ all_segments outs = [head_buf] ++ (all_segments cs0 ++ before) ++ [tail_buf, l])) ∧
    payload head_buf = "callback(".toList ∧ payload tail_buf = ");".toList ∧
    payload tail_buf_final = ");".toList ∧
    payload { l with last_buf := false } = payload l := by
  refine ⟨?_, ?_, payload_head_buf, payload_tail_buf, payload_tail_buf_final, rfl⟩
  · intro hpool
    obtain ⟨r1, outs, e, _⟩ := delivered_segments r cs0 before l hctx hpool hl hbefore
    exact ⟨r1, outs, e⟩
  · intro r1 outs h
    rw [delivered_segments_inv r r1 cs0 before l outs hctx hl hbefore h]
    rcases closing_cases l hl with hc | hc
    · exact Or.inl (by rw [hc]; simp)
    · exact Or.inr (by rw [hc]; simp)

/-- C8, at a body of three data buffers delivered in two chains. -/
theorem C8_segment_order_witness :
    deliver wrapped_request
        ([[data_buf "a" false, data_buf "b" false]] ++ [[] ++ [data_buf "c" true]])
      = some (sent_request, [[head_buf, data_buf "a" false, data_buf "b" false],
          [data_buf "c" false, tail_buf_final]]) ∧
    (all_segments [[head_buf, data_buf "a" false, data_buf "b" false],
          [data_buf "c" false, tail_buf_final]]
        = [head_buf] ++ (all_segments [[data_buf "a" false, data_buf "b" false]] ++ [])
            ++ [{ data_buf "c" true with last_buf := false }, tail_buf_final]
      ∨ all_segments [[head_buf, data_buf "a" false, data_buf "b" false],
          [data_buf "c" false, tail_buf_final]]
        = [head_buf] ++ (all_segments [[data_buf "a" false, data_buf "b" false]] ++ [])
            ++ [tail_buf, data_buf "c" true]) := by
  have e : deliver wrapped_request
      ([[data_buf "a" false, data_buf "b" false]] ++ [[] ++ [data_buf "c" true]])
      = some (sent_request, [[head_buf, data_buf "a" false, data_buf "b" false],
          [data_buf "c" false, tail_buf_final]]) := by decide
  exact ⟨e, (C8_segment_order wrapped_request [[data_buf "a" false, data_buf "b" false]] []
    (data_buf "c" true) rfl rfl (by decide)).2.1 _ _ e⟩

/-- C9 in the wording of the component design does not hold of the code.  On a
request whose `"callback("` has been sent, the
chain `["x", ""]` whose second buffer is an empty in-memory buffer with
`last_buf` (size 0, not special) is handed on as `["x", ");", ""]`: position 1,
which held the final buffer, holds the `");"` payload but with `last_buf` 0, and
the appended last position holds the empty buffer with `last_buf` 1, the
opposite of the flags claimed. -/
theorem C9_counterexample :
    sent_request.ctx = some ⟨true⟩ ∧
    (data_buf "" true).last_buf = true ∧
    ngx_buf_size (data_buf "" true) = 0 ∧
    ngx_buf_special (data_buf "" true) = false ∧
    ngx_http_jsonp_body_filter sent_request [data_buf "x" false, data_buf "" true]
      = body_return.ngx_http_next_body_filter sent_request
          [data_buf "x" false, tail_buf, data_buf "" true] ∧
    payload tail_buf = ");".toList ∧ tail_buf.last_buf = false ∧
    payload (data_buf "" true) = [] ∧
    ¬ (tail_buf.last_buf = true ∧ (data_buf "" true).last_buf = false) := by
  decide

/-- C9, amended. Empty-final swap rule: for a call of the body filter with a
context present, on a chain whose first buffer with `last_buf` has size 0 and is
not special, in the chain handed on (one is handed on whenever the allocations
succeed) the position that held that buffer (counting the `"callback("` buffer
when it is put in front) holds the `");"` buffer with `last_buf` 0, and the
appended position, the last, holds the original empty buffer, unchanged, with
`last_buf` 1. -/
theorem C9_swap_positions (r : ngx_http_request_t) (ctx : ngx_http_jsonp_ctx_t)
    (before : ngx_chain_t) (l : ngx_buf_t) (after : ngx_chain_t)
    (hctx : r.ctx = some ctx)
    (hbefore : ∀ b ∈ before, b.last_buf = false) (hl : l.last_buf = true)
    (hsize : ngx_buf_size l = 0) (hspecial : ngx_buf_special l = false) :
    (pool_ample r.pool →
      ∃ r1 out, ngx_http_jsonp_body_filter r (before ++ l :: after)
        = body_return.ngx_http_next_body_filter r1 out) ∧
    (∀ r1 out, ngx_http_jsonp_body_filter r (before ++ l :: after)
        = body_return.ngx_http_next_body_filter r1 out →
      out.length = (head_part ctx ++ before).length + 2 ∧
      out[(head_part ctx ++ before).length]? = some tail_buf ∧
      out[(head_part ctx ++ before).length + 1]? = some l) ∧
    payload tail_buf = ");".toList ∧ tail_buf.last_buf = false ∧
    payload l = [] ∧ l.last_buf = true := by
  refine ⟨body_filter_hands_on r ctx _ hctx, ?_, payload_tail_buf, rfl,
    payload_of_size_zero l hsize, hl⟩
  intro r1 out h
  obtain ⟨hout, _⟩ := body_filter_next_inv r ctx _ r1 out hctx h
  rw [hout, closed_swapped before l after hbefore hl hsize hspecial, ← List.append_assoc]
  refine ⟨by simp [Nat.add_assoc], ?_, ?_⟩
  · rw [List.getElem?_append_right (le_refl _)]
    simp
  · rw [List.getElem?_append_right (Nat.le_succ _)]
    simp

/-- C9 amended, at the chain `["x", ""]` of the counterexample. -/
theorem C9_swap_positions_witness :
    ∃ r1 out, ngx_http_jsonp_body_filter sent_request ([data_buf "x" false] ++ data_buf "" true :: [])
        = body_return.ngx_http_next_body_filter r1 out ∧
      out.length = 3 ∧ out[1]? = some tail_buf ∧ out[2]? = some (data_buf "" true) ∧
      tail_buf.last_buf = false ∧ (data_buf "" true).last_buf = true := by
  obtain ⟨h1, h2, _, h3, _, h4⟩ := C9_swap_positions sent_request ⟨true⟩
    [data_buf "x" false] (data_buf "" true) [] rfl (by decide) rfl (by decide) (by decide)
  obtain ⟨r1, out, e⟩ := h1 (by decide)
  obtain ⟨e1, e2, e3⟩ := h2 r1 out e
  exact ⟨r1, out, e, e1, e2, e3, h3, h4⟩

/-- C10 in the wording of the testable properties does not hold of the code.
For an empty body, delivered as the one chain whose
only buffer is a file buffer of size 0 with `last_buf` (not special), the chain
handed on is `["callback(", ");", ""]`: the `");"` buffer is second to last and has
`last_buf` 0, and the empty original buffer is last and has `last_buf` 1, the
opposite of the order claimed. -/
theorem C10_counterexample :
    wrapped_request.ctx = some ⟨false⟩ ∧
    empty_file_buf.last_buf = true ∧
    ngx_buf_size empty_file_buf = 0 ∧
    ngx_buf_special empty_file_buf = false ∧
    ngx_http_jsonp_body_filter wrapped_request [empty_file_buf]
      = body_return.ngx_http_next_body_filter sent_request
          [head_buf, tail_buf, empty_file_buf] ∧
    [head_buf, tail_buf, empty_file_buf].map payload
      = ["callback(".toList, ");".toList, []] ∧
    [head_buf, tail_buf, empty_file_buf].map (fun b => b.last_buf) = [false, false, true] ∧
    ¬ ([head_buf, tail_buf, empty_file_buf].map payload
          = ["callback(".toList, [], ");".toList]) := by
  decide

/-- C10, amended. Empty-body scenario: for a call of the body filter with a
context present, on a chain whose first buffer with `last_buf` has size 0 and is
not special, the chain handed on (one is handed on whenever the allocations
succeed) ends with the `");"` buffer, second to last and with `last_buf` 0,
followed by the empty original buffer, last and with `last_buf` 1. -/
theorem C10_empty_final_last (r : ngx_http_request_t) (ctx : ngx_http_jsonp_ctx_t)
    (before : ngx_chain_t) (l : ngx_buf_t) (after : ngx_chain_t)
    (hctx : r.ctx = some ctx)
    (hbefore : ∀ b ∈ before, b.last_buf = false) (hl : l.last_buf = true)
    (hsize : ngx_buf_size l = 0) (hspecial : ngx_buf_special l = false) :
    (pool_ample r.pool →
      ∃ r1 out, ngx_http_jsonp_body_filter r (before ++ l :: after)
        = body_return.ngx_http_next_body_filter r1 out) ∧
    (∀ r1 out, ngx_http_jsonp_body_filter r (before ++ l :: after)
        = body_return.ngx_http_next_body_filter r1 out →
      ∃ front, out = front ++ [tail_buf, l]) ∧
    payload tail_buf = ");".toList ∧ tail_buf.last_buf = false ∧
    payload l = [] ∧ l.last_buf = true := by
  refine ⟨body_filter_hands_on r ctx _ hctx, ?_, payload_tail_buf, rfl,
    payload_of_size_zero l hsize, hl⟩
  intro r1 out h
  obtain ⟨hout, _⟩ := body_filter_next_inv r ctx _ r1 out hctx h
  refine ⟨head_part ctx ++ before, ?_⟩
  rw [hout, closed_swapped before l after hbefore hl hsize hspecial, List.append_assoc]

/-- C10 amended, at the empty body of the counterexample. -/
theorem C10_empty_final_last_witness :
    ∃ r1 out front, ngx_http_jsonp_body_filter wrapped_request ([] ++ empty_file_buf :: [])
        = body_return.ngx_http_next_body_filter r1 out ∧
      out = front ++ [tail_buf, empty_file_buf] ∧
      payload tail_buf = ");".toList ∧ tail_buf.last_buf = false ∧
      payload empty_file_buf = [] ∧ empty_file_buf.last_buf = true := by
  obtain ⟨h1, h2, h3, h4, h5, h6⟩ := C10_empty_final_last wrapped_request ⟨false⟩ []
    empty_file_buf [] rfl (by simp) rfl (by decide) (by decide)
  obtain ⟨r1, out, e⟩ := h1 (by decide)
  obtain ⟨front, hf⟩ := h2 r1 out e
  exact ⟨r1, out, front, e, hf, h3, h4, h5, h6⟩

/-- C11. Header-stage allocation failure is atomic: when wrapping applies
(`enable` non-zero, status 200, `header_only` not set) and the allocation of the
context fails, the header filter returns `NGX_ERROR`; the context slot, the
content type, its length and the content length are as they were; and the next
header filter is not called. -/
theorem C11_header_alloc_failure (r : ngx_http_request_t)
    (hon : r.loc_conf.enable ≠ 0 ∧ r.headers_out.status = 200 ∧ r.header_only = false)
    (hfail : (ngx_palloc r.pool).1 = false) :
    ∃ r1, ngx_http_jsonp_header_filter r = header_return.NGX_ERROR r1 ∧
      r1.ctx = r.ctx ∧
      r1.headers_out.content_type = r.headers_out.content_type ∧
      r1.headers_out.content_type_len = r.headers_out.content_type_len ∧
      r1.headers_out.content_length_n = r.headers_out.content_length_n ∧
      ∀ r2, ngx_http_jsonp_header_filter r ≠ header_return.ngx_http_next_header_filter r2 := by
  rcases hp : ngx_palloc r.pool with ⟨ok, pool1⟩
  rw [hp] at hfail
  simp only at hfail
  subst hfail
  have e := header_filter_alloc_failed r pool1 hon hp
  refine ⟨_, e, rfl, rfl, rfl, rfl, ?_⟩
  intro r2 h
  rw [e] at h
  exact header_return.noConfusion h

/-- C11, at a request with `jsonp on`, status 200, a body, a content length of 7
and a pool whose next allocation fails. -/
theorem C11_header_alloc_failure_witness :
    (ngx_palloc starved_request.pool).1 = false ∧
    ∃ r1, ngx_http_jsonp_header_filter starved_request = header_return.NGX_ERROR r1 ∧
      r1.ctx = none ∧
      r1.headers_out.content_type = ngx_string "application/json" ∧
      r1.headers_out.content_type_len = 16 ∧
      r1.headers_out.content_length_n = 7 := by
  obtain ⟨r1, e, h1, h2, h3, h4, _⟩ := C11_header_alloc_failure starved_request
    ⟨by decide, rfl, rfl⟩ rfl
  exact ⟨rfl, r1, e, h1, h2, h3, h4⟩

/-- C13. Configuration inheritance: `ngx_http_jsonp_create_conf`, when its
allocation succeeds, returns a configuration whose `enable` is `NGX_CONF_UNSET`
(and whenever it returns one, its `enable` is `NGX_CONF_UNSET`); after
`ngx_http_jsonp_merge_conf` the child's `enable` is its own value if that was
set, else the parent's value if that was set, else 0; so a value set in the
child is not overridden by the parent. -/
theorem C13_conf_inheritance (pool : ngx_pool_t) (parent child : ngx_http_jsonp_conf_t) :
    ((ngx_palloc pool).1 = true →
      ∃ conf, (ngx_http_jsonp_create_conf pool).1 = some conf) ∧
    (∀ conf, (ngx_http_jsonp_create_conf pool).1 = some conf →
      conf.enable = NGX_CONF_UNSET) ∧
    (child.enable ≠ NGX_CONF_UNSET →
      (ngx_http_jsonp_merge_conf parent child).enable = child.enable) ∧
    (child.enable = NGX_CONF_UNSET → parent.enable ≠ NGX_CONF_UNSET →
      (ngx_http_jsonp_merge_conf parent child).enable = parent.enable) ∧
    (child.enable = NGX_CONF_UNSET → parent.enable = NGX_CONF_UNSET →
      (ngx_http_jsonp_merge_conf parent child).enable = 0) := by
  refine ⟨?_, ?_, ?_, ?_, ?_⟩
  · intro h
    rcases hp : ngx_palloc pool with ⟨ok, pool1⟩
    rw [hp] at h
    simp only at h
    subst h
    exact ⟨{ enable := NGX_CONF_UNSET }, by simp only [ngx_http_jsonp_create_conf, hp]⟩
  · intro conf h
    rcases hp : ngx_palloc pool with ⟨ok, pool1⟩
    cases ok
    · simp [ngx_http_jsonp_create_conf, hp] at h
    · simp only [ngx_http_jsonp_create_conf, hp, Option.some.injEq] at h
      rw [← h]
  · intro h
    simp [ngx_http_jsonp_merge_conf, ngx_conf_merge_value, h]
  · intro h1 h2
    simp [ngx_http_jsonp_merge_conf, ngx_conf_merge_value, h1, h2]
  · intro h1 h2
    simp [ngx_http_jsonp_merge_conf, ngx_conf_merge_value, h1, h2]

/-- C13, at a fresh child configuration merged under a parent with `jsonp on`,
and at a child with `jsonp off` merged under the same parent. -/
theorem C13_conf_inheritance_witness :
    (ngx_http_jsonp_create_conf { outcomes := [] }).1 = some { enable := -1 } ∧
    (ngx_http_jsonp_merge_conf { enable := 1 } { enable := -1 }).enable = 1 ∧
    (ngx_http_jsonp_merge_conf { enable := 1 } { enable := 0 }).enable = 0 ∧
    (ngx_http_jsonp_merge_conf { enable := -1 } { enable := -1 }).enable = 0 := by
  obtain ⟨h1, h2, _, h4, _⟩ := C13_conf_inheritance { outcomes := [] }
    { enable := 1 } { enable := -1 }
  obtain ⟨_, _, k3, _, _⟩ := C13_conf_inheritance { outcomes := [] }
    { enable := 1 } { enable := 0 }
  obtain ⟨_, _, _, _, m5⟩ := C13_conf_inheritance { outcomes := [] }
    { enable := -1 } { enable := -1 }
  exact ⟨rfl, h4 rfl (by decide), k3 (by decide), m5 rfl rfl⟩

/-- C14 in its wording does not hold of the code.  On a request whose
`"callback("` has been sent, the chain `["x", marker]` whose second buffer is a
pure end-of-stream marker (only `last_buf` set: special, size 0) is handed on as
`["x", ");", marker]`: the filter clears `last_buf` before it tests
`ngx_buf_special`, the marker is then empty and no longer special, and the swap
takes place; the `");"` buffer has `last_buf` 0 and the marker, last, keeps
`last_buf` 1. -/
theorem C14_counterexample :
    sent_request.ctx = some ⟨true⟩ ∧
    marker_buf.last_buf = true ∧
    ngx_buf_special marker_buf = true ∧
    ngx_buf_special { marker_buf with last_buf := false } = false ∧
    ngx_buf_size { marker_buf with last_buf := false } = 0 ∧
    ngx_http_jsonp_body_filter sent_request [data_buf "x" false, marker_buf]
      = body_return.ngx_http_next_body_filter sent_request
          [data_buf "x" false, tail_buf, marker_buf] ∧
    tail_buf.last_buf = false ∧
    ¬ ([data_buf "x" false, tail_buf, marker_buf]
        = [data_buf "x" false, { marker_buf with last_buf := false }, tail_buf_final]) := by
  decide

/-- C14, amended. For a call of the body filter with a context present, on a
chain whose first buffer with `last_buf` is `l`, a chain is handed on whenever
the allocations succeed, and: (1) when `l` is still special once `last_buf` is
cleared, which is to say `flush` or `sync` is set and `l` is neither in memory
nor in a file, no swap occurs: every chain handed on ends with `l` with
`last_buf` cleared followed by the new `");"` buffer, which carries `last_buf` 1;
(2) when `l` is a pure end-of-stream marker (neither `flush` nor `sync` set,
neither in memory nor in a file, of size 0), `l` is special but is not once
`last_buf` is cleared, and the swap occurs: every chain handed on ends with the
new `");"` buffer, with `last_buf` 0, followed by `l` as it was, `last_buf` 1. -/
theorem C14_special_not_swapped (r : ngx_http_request_t) (ctx : ngx_http_jsonp_ctx_t)
    (before : ngx_chain_t) (l : ngx_buf_t) (after : ngx_chain_t)
    (hctx : r.ctx = some ctx)
    (hbefore : ∀ b ∈ before, b.last_buf = false) (hl : l.last_buf = true) :
    (pool_ample r.pool →
      ∃ r1 out, ngx_http_jsonp_body_filter r (before ++ l :: after)
        = body_return.ngx_http_next_body_filter r1 out) ∧
    (ngx_buf_special { l with last_buf := false } = true ↔
      ((l.flush = true ∨ l.sync = true) ∧ ngx_buf_in_memory l = false ∧ l.in_file = false)) ∧
    (ngx_buf_special { l with last_buf := false } = true →
      ngx_buf_special l = true ∧
      ∀ r1 out, ngx_http_jsonp_body_filter r (before ++ l :: after)
          = body_return.ngx_http_next_body_filter r1 out →
        out = head_part ctx ++ before ++ [{ l with last_buf := false }, tail_buf_final]) ∧
    (l.flush = false → l.sync = false → ngx_buf_in_memory l = false → l.in_file = false →
      ngx_buf_size l = 0 →
      ngx_buf_special l = true ∧ ngx_buf_special { l with last_buf := false } = false ∧
      ∀ r1 out, ngx_http_jsonp_body_filter r (before ++ l :: after)
          = body_return.ngx_http_next_body_filter r1 out →
        out = head_part ctx ++ before ++ [tail_buf, l]) ∧
    payload tail_buf_final = ");".toList ∧ tail_buf_final.last_buf = true ∧
    payload tail_buf = ");".toList ∧ tail_buf.last_buf = false := by
  have hiff : ngx_buf_special { l with last_buf := false } = true ↔
      ((l.flush = true ∨ l.sync = true) ∧ ngx_buf_in_memory l = false ∧ l.in_file = false) := by
    unfold ngx_buf_special ngx_buf_in_memory
    simp only [Bool.or_false, Bool.and_eq_true, Bool.or_eq_true, Bool.not_eq_true']
    exact and_assoc
  have hsp : ngx_buf_in_memory l = false → l.in_file = false → ngx_buf_special l = true := by
    intro h1 h2
    unfold ngx_buf_special
    rw [hl, h1, h2]
    simp
  refine ⟨body_filter_hands_on r ctx _ hctx, hiff, ?_, ?_, payload_tail_buf_final, rfl,
    payload_tail_buf, rfl⟩
  · intro hspecial
    obtain ⟨_, hm, hf⟩ := hiff.mp hspecial
    refine ⟨hsp hm hf, ?_⟩
    intro r1 out h
    obtain ⟨hout, _⟩ := body_filter_next_inv r ctx _ r1 out hctx h
    rw [hout, closed_of_split before l after hbefore hl, closing_plain l ?_,
      List.append_assoc]
    rintro ⟨_, h2⟩
    rw [hspecial] at h2
    exact Bool.noConfusion h2
  · intro hflush hsync hm hf hsize
    have hns : ngx_buf_special { l with last_buf := false } = false := by
      cases hs : ngx_buf_special { l with last_buf := false } with
      | false => rfl
      | true =>
        obtain ⟨h1 | h1, _⟩ := hiff.mp hs
        · rw [hflush] at h1; exact Bool.noConfusion h1
        · rw [hsync] at h1; exact Bool.noConfusion h1
    refine ⟨hsp hm hf, hns, ?_⟩
    intro r1 out h
    obtain ⟨hout, _⟩ := body_filter_next_inv r ctx _ r1 out hctx h
    rw [hout, closed_of_split before l after hbefore hl,
      closing_swapped l hl ⟨by rw [size_clear_last_buf]; exact hsize, hns⟩,
      List.append_assoc]

/-- C14 amended, at the chain `["x", flush marker]` on a call after
`"callback("` was sent: the marker, with `flush` set, stays special and is not
swapped; and at the chain `[marker]` on a first call: the pure marker is
swapped and stays last. -/
theorem C14_special_not_swapped_witness :
    ngx_buf_special { flush_marker_buf with last_buf := false } = true ∧
    (∃ r1, ngx_http_jsonp_body_filter sent_request
        ([data_buf "x" false] ++ flush_marker_buf :: [])
      = body_return.ngx_http_next_body_filter r1
          [data_buf "x" false, { flush_marker_buf with last_buf := false }, tail_buf_final]) ∧
    ngx_buf_size marker_buf = 0 ∧
    (∃ r1, ngx_http_jsonp_body_filter wrapped_request ([] ++ marker_buf :: [])
      = body_return.ngx_http_next_body_filter r1 [head_buf, tail_buf, marker_buf]) := by
  refine ⟨by decide, ?_, by decide, ?_⟩
  · obtain ⟨h1, _, h2, _⟩ := C14_special_not_swapped sent_request ⟨true⟩ [data_buf "x" false]
      flush_marker_buf [] rfl (by decide) rfl
    obtain ⟨r1, out, e⟩ := h1 (by decide)
    have hout := (h2 (by decide)).2 r1 out e
    rw [hout] at e
    exact ⟨r1, e⟩
  · obtain ⟨h1, _, _, h3, _⟩ := C14_special_not_swapped wrapped_request ⟨false⟩ []
      marker_buf [] rfl (by simp) rfl
    obtain ⟨r1, out, e⟩ := h1 (by decide)
    have hout := (h3 rfl rfl rfl rfl (by decide)).2.2 r1 out e
    rw [hout] at e
    exact ⟨r1, e⟩

/-- C18. Header and body stay consistent: for a response the header filter
wraps, whose declared content length `L` is the number of payload bytes of the
body (with `L + 11` an `off_t` value), and whose body is delivered as chains of
which the only buffer with `last_buf` is the last buffer of the last chain, the
header filter writes `L + 11`, and the payload bytes of all buffers the body
filter hands on (every call hands a chain on when the allocations succeed)
number exactly the content length written.  The 9 and 2 bytes the body filter
adds are the 11 bytes the header filter adds. -/
theorem C18_length_consistent (r : ngx_http_request_t) (cs0 : List ngx_chain_t)
    (before : ngx_chain_t) (l : ngx_buf_t)
    (hon : r.loc_conf.enable ≠ 0 ∧ r.headers_out.status = 200 ∧ r.header_only = false)
    (halloc : (ngx_palloc r.pool).1 = true)
    (hL : r.headers_out.content_length_n
      = ((chain_bytes (all_segments (cs0 ++ [before ++ [l]]))).length : Int))
    (hhi : r.headers_out.content_length_n + 11 < 2 ^ 63)
    (hl : l.last_buf = true)
    (hbefore : ∀ b ∈ all_segments cs0 ++ before, b.last_buf = false) :
    ∃ r1, ngx_http_jsonp_header_filter r = header_return.ngx_http_next_header_filter r1 ∧
      r1.headers_out.content_length_n = r.headers_out.content_length_n + 11 ∧
      (pool_ample r1.pool →
        ∃ r2 outs, deliver r1 (cs0 ++ [before ++ [l]]) = some (r2, outs)) ∧
      (∀ r2 outs, deliver r1 (cs0 ++ [before ++ [l]]) = some (r2, outs) →
        ((chain_bytes (all_segments outs)).length : Int)
          = r1.headers_out.content_length_n) ∧
      (sizeof_literal "callback(" - 1) + (sizeof_literal ");" - 1)
        = sizeof_literal "callback();" - 1 := by
  rcases hp : ngx_palloc r.pool with ⟨ok, pool1⟩
  rw [hp] at halloc
  simp only at halloc
  subst halloc
  have hne : r.headers_out.content_length_n ≠ -1 := by
    rw [hL]; omega
  have hlen : (if r.headers_out.content_length_n ≠ -1 then
      off_t_wrap (r.headers_out.content_length_n + 11)
      else r.headers_out.content_length_n) = r.headers_out.content_length_n + 11 := by
    rw [if_pos hne]
    unfold off_t_wrap
    have : (0 : Int) ≤ r.headers_out.content_length_n := by rw [hL]; omega
    omega
  refine ⟨_, header_filter_on r pool1 hon hp, hlen, ?_, ?_, by decide⟩
  · intro hpool
    obtain ⟨r2, outs, e, _⟩ := delivered_segments _ cs0 before l rfl hpool hl hbefore
    exact ⟨r2, outs, e⟩
  · intro r2 outs h
    rw [delivered_bytes_inv _ r2 cs0 before l outs rfl hl hbefore h]
    show _ = (if r.headers_out.content_length_n ≠ -1 then
      off_t_wrap (r.headers_out.content_length_n + 11)
      else r.headers_out.content_length_n)
    rw [hlen, hL]
    have h9 : "callback(".toList.length = 9 := by decide
    have h2 : ");".toList.length = 2 := by decide
    simp only [List.length_append, h9, h2]
    push_cast
    omega

/-- C18, at the body `{"a":1}` of declared length 7 delivered in two chains: the
header filter writes 18 and the body filter hands on 18 payload bytes. -/
theorem C18_length_consistent_witness :
    fresh_request.headers_out.content_length_n = 7 ∧
    ((chain_bytes (all_segments ([[data_buf "\x7b\"a\"" false]]
        ++ [[] ++ [data_buf ":1\x7d" true]]))).length : Int) = 7 ∧
    ∃ r1 r2 outs,
      ngx_http_jsonp_header_filter fresh_request
        = header_return.ngx_http_next_header_filter r1 ∧
      r1.headers_out.content_length_n = 18 ∧
      deliver r1 ([[data_buf "\x7b\"a\"" false]] ++ [[] ++ [data_buf ":1\x7d" true]])
        = some (r2, outs) ∧
      ((chain_bytes (all_segments outs)).length : Int) = 18 := by
  refine ⟨rfl, by decide, ?_⟩
  obtain ⟨r1, e, h1, h2, h3, _⟩ := C18_length_consistent fresh_request
    [[data_buf "\x7b\"a\"" false]] [] (data_buf ":1\x7d" true)
    ⟨by decide, rfl, rfl⟩ rfl (by decide) (by decide) rfl (by decide)
  have hp : pool_ample r1.pool := by
    have e0 : ngx_http_jsonp_header_filter fresh_request
        = header_return.ngx_http_next_header_filter
            { wrapped_request with
              headers_out := { wrapped_request.headers_out with content_length_n := 18 } } := by
      decide
    rw [e0] at e
    simp only [header_return.ngx_http_next_header_filter.injEq] at e
    rw [← e]
    decide
  obtain ⟨r2, outs, e2⟩ := h2 hp
  have h18 : r1.headers_out.content_length_n = 18 := by
    rw [h1]; rfl
  exact ⟨r1, r2, outs, e, h18, e2, by rw [h3 r2 outs e2, h18]⟩

/-- C12. Body-stage allocation failure forwards nothing, with the chain as it
lies in memory: for a call of the body filter with a context present, on a
chain of links in memory, (1) when the buffer or the link for `"callback("`
cannot be allocated, (2) when the chain holds a buffer with `last_buf` and the
buffer or the link for `");"` cannot be allocated, `"callback("` having been sent
by an earlier call, or (3) having been put in front by this call, the filter
returns `NGX_ERROR` and so does not call the next body filter; and (4) whenever
it returns `NGX_ERROR`, every buffer object and every link object that was in
memory before the call is as it was: the input chain has the same links, in
the same order, pointing to the same buffers with the same field values. -/
theorem C12_body_alloc_failure (r : ngx_http_request_t) (ctx : ngx_http_jsonp_ctx_t)
    (in_ : Option Nat) (m : Mem.ngx_memory) (cells : List Nat)
    (hctx : r.ctx = some ctx) (hchain : Mem.is_chain m in_ cells) :
    (ctx.prefix_ = false → (alloc_ok r.pool 0 = false ∨ alloc_ok r.pool 1 = false) →
      ∃ r1 m1, Mem.ngx_http_jsonp_body_filter r in_ m
        = some (Mem.body_return.NGX_ERROR r1 m1)) ∧
    (ctx.prefix_ = true → (∃ a ∈ cells, (m.buf_of a).last_buf = true) →
      (alloc_ok r.pool 0 = false ∨ alloc_ok r.pool 1 = false) →
      ∃ r1 m1, Mem.ngx_http_jsonp_body_filter r in_ m
        = some (Mem.body_return.NGX_ERROR r1 m1)) ∧
    (ctx.prefix_ = false → alloc_ok r.pool 0 = true → alloc_ok r.pool 1 = true →
      (∃ a ∈ cells, (m.buf_of a).last_buf = true) →
      (alloc_ok r.pool 2 = false ∨ alloc_ok r.pool 3 = false) →
      ∃ r1 m1, Mem.ngx_http_jsonp_body_filter r in_ m
        = some (Mem.body_return.NGX_ERROR r1 m1)) ∧
    (∀ r1 m1, Mem.ngx_http_jsonp_body_filter r in_ m
        = some (Mem.body_return.NGX_ERROR r1 m1) →
      m.bufs <+: m1.bufs ∧ m.links <+: m1.links ∧ Mem.is_chain m1 in_ cells
        ∧ Mem.chain_values m1 cells = Mem.chain_values m cells
        ∧ ∀ a ∈ cells, m1.link_at a = m.link_at a ∧ m1.buf_of a = m.buf_of a) := by
  have hp1 := palloc_eq r.pool
  have hp2 := palloc_eq { outcomes := r.pool.outcomes.tail }
  rw [alloc_ok_tail] at hp2
  have hp3 := palloc_eq { outcomes := r.pool.outcomes.tail.tail }
  have hp4 := palloc_eq { outcomes := r.pool.outcomes.tail.tail.tail }
  have e2 : alloc_ok { outcomes := r.pool.outcomes.tail.tail } 0 = alloc_ok r.pool 2 := by
    rw [alloc_ok_tail { outcomes := r.pool.outcomes.tail } 0, alloc_ok_tail r.pool 1]
  have e3 : alloc_ok { outcomes := r.pool.outcomes.tail.tail.tail } 0 = alloc_ok r.pool 3 := by
    rw [alloc_ok_tail { outcomes := r.pool.outcomes.tail.tail } 0,
      alloc_ok_tail { outcomes := r.pool.outcomes.tail } 1, alloc_ok_tail r.pool 2]
  rw [e2] at hp3
  rw [e3] at hp4
  obtain ⟨sent⟩ := ctx
  refine ⟨?_, ?_, ?_, ?_⟩
  · intro hs hfail
    simp only at hs
    subst hs
    rw [Mem.filter_first r in_ m _ _ _ _ hctx hp1 hp2, if_neg]
    · exact ⟨_, _, rfl⟩
    · rintro ⟨h1, h2⟩
      rcases hfail with h | h
      · rw [h1] at h; exact Bool.noConfusion h
      · rw [h2] at h; exact Bool.noConfusion h
  · intro hs hfinal hfail
    simp only at hs
    subst hs
    obtain ⟨before, a, after, e, hno, ha⟩ :=
      exists_first cells (fun a => (m.buf_of a).last_buf) hfinal
    subst e
    rw [Mem.body_filter_sent r in_ m hctx,
      Mem.suffix_of_final r in_ m before a after _ _ _ _ hchain hno ha hp1 hp2, if_neg]
    · exact ⟨_, _, rfl⟩
    · rintro ⟨h1, h2⟩
      rcases hfail with h | h
      · rw [h1] at h; exact Bool.noConfusion h
      · rw [h2] at h; exact Bool.noConfusion h
  · intro hs hok0 hok1 hfinal hfail
    simp only at hs
    subst hs
    obtain ⟨before, a, after, e, hno, ha⟩ :=
      exists_first cells (fun a => (m.buf_of a).last_buf) hfinal
    subst e
    obtain ⟨hc0, hno0, hb0, _, _⟩ := Mem.first_call_chain m in_ before a after hchain hno
    rw [Mem.filter_first r in_ m _ _ _ _ hctx hp1 hp2, if_pos ⟨hok0, hok1⟩,
      Mem.suffix_of_final _ _ _ (m.links.length :: before) a after _ _ _ _ hc0 hno0
        (by rw [hb0]; exact ha) hp3 hp4, if_neg]
    · exact ⟨_, _, rfl⟩
    · rintro ⟨h1, h2⟩
      rcases hfail with h | h
      · rw [h1] at h; exact Bool.noConfusion h
      · rw [h2] at h; exact Bool.noConfusion h
  · intro r1 m1 h
    obtain ⟨hb, hl⟩ := Mem.body_filter_error_inv r in_ m r1 m1 h
    obtain ⟨k1, k2, k3⟩ := Mem.chain_of_prefix m m1 in_ none cells hb hl hchain
    exact ⟨hb, hl, k1, k2, k3⟩

/-- C12, at the chain `["x", "", "zz"]` in memory, on a first call whose fourth
allocation, that of the link for `");"`, fails: the filter returns `NGX_ERROR`
and the three links and their buffers are as they were. -/
theorem C12_body_alloc_failure_witness :
    Mem.is_chain three_link_memory (some 0) [0, 1, 2] ∧
    alloc_ok short_pool_request.pool 3 = false ∧
    ∃ r1 m1, Mem.ngx_http_jsonp_body_filter short_pool_request (some 0) three_link_memory
        = some (Mem.body_return.NGX_ERROR r1 m1) ∧
      three_link_memory.bufs <+: m1.bufs ∧ three_link_memory.links <+: m1.links ∧
      Mem.is_chain m1 (some 0) [0, 1, 2] ∧
      Mem.chain_values m1 [0, 1, 2]
        = [data_buf "x" false, data_buf "" true, data_buf "zz" true] := by
  have hchain : Mem.is_chain three_link_memory (some 0) [0, 1, 2] := by
    simp [Mem.is_chain, Mem.is_path, three_link_memory, Mem.ngx_memory.link_at]
  obtain ⟨_, _, h3, h4⟩ := C12_body_alloc_failure short_pool_request ⟨false⟩ (some 0)
    three_link_memory [0, 1, 2] rfl hchain
  obtain ⟨r1, m1, e⟩ := h3 rfl (by decide) (by decide) ⟨1, by simp, by decide⟩
    (Or.inr (by decide))
  obtain ⟨k1, k2, k3, k4, _⟩ := h4 r1 m1 e
  exact ⟨hchain, by decide, r1, m1, e, k1, k2, k3, by rw [k4]; decide⟩

/-- C15. Empty final buffer is kept last, with the chain as it lies in memory:
for a call of the body filter with a context present, on a chain in memory
whose first buffer with `last_buf` (the buffer of the link `a`) has, once
`last_buf` is cleared, size 0 and is not special, in the chain handed on (one
is handed on whenever the allocations succeed) the link `a` keeps its place
and now points to the new `");"` buffer, whose `last_buf` is 0; a new link `c`
follows it and is the last; `c` points to the buffer object `a` pointed to,
which has the field values it had, `last_buf` 1 among them.  The two links
have exchanged buffer addresses; no buffer was copied. -/
theorem C15_empty_final_kept_last (r : ngx_http_request_t) (ctx : ngx_http_jsonp_ctx_t)
    (in_ : Option Nat) (m : Mem.ngx_memory) (before : List Nat) (a : Nat) (after : List Nat)
    (hctx : r.ctx = some ctx)
    (hchain : Mem.is_chain m in_ (before ++ a :: after))
    (hbefore : ∀ c ∈ before, (m.buf_of c).last_buf = false)
    (hl : (m.buf_of a).last_buf = true)
    (hsize : ngx_buf_size { m.buf_of a with last_buf := false } = 0)
    (hspecial : ngx_buf_special { m.buf_of a with last_buf := false } = false) :
    (pool_ample r.pool →
      ∃ r1 in1 m1, Mem.ngx_http_jsonp_body_filter r in_ m
        = some (Mem.body_return.ngx_http_next_body_filter r1 in1 m1)) ∧
    (∀ r1 in1 m1, Mem.ngx_http_jsonp_body_filter r in_ m
        = some (Mem.body_return.ngx_http_next_body_filter r1 in1 m1) →
      ∃ front s c,
        m.bufs.length ≤ s ∧ m.links.length ≤ c ∧ (∀ x ∈ front, m.links.length ≤ x) ∧
        Mem.is_chain m1 in1 (front ++ before ++ [a, c]) ∧
        Mem.chain_values m1 (front ++ before) = head_part ctx ++ Mem.chain_values m before ∧
        m1.link_at a = { buf := s, next := some c } ∧
        m1.buf_at s = tail_buf ∧
        m1.link_at c = { buf := (m.link_at a).buf, next := none } ∧
        m1.buf_at (m.link_at a).buf = m.buf_of a) ∧
    tail_buf.last_buf = false ∧ payload tail_buf = ");".toList := by
  refine ⟨Mem.filter_hands_on r ctx in_ m _ hctx hchain, ?_, rfl, payload_tail_buf⟩
  intro r1 in1 m1 h
  obtain ⟨m0, front, hc0, hno0, hb0, hl0, hv0, hlen1, hlen2, hfront, e, _⟩ :=
    Mem.body_filter_final_inv r ctx in_ m before a after r1 in1 m1 hctx hchain hbefore hl h
  subst e
  have ha0 : (m0.buf_of a).last_buf = true := by rw [hb0]; exact hl
  obtain ⟨k1, k2, _⟩ := Mem.closed_memory_chain m0 in1 (front ++ before) a after hc0 hno0 ha0
  obtain ⟨mid, hp1, hp2⟩ := (Mem.is_path_append m0 (front ++ before) (a :: after) in1 none).mp hc0
  obtain ⟨_, hlast, hbuf, _⟩ := hp2
  have hcond : ngx_buf_size { m0.buf_of a with last_buf := false } = 0
      ∧ ngx_buf_special { m0.buf_of a with last_buf := false } = false := by
    rw [hb0]; exact ⟨hsize, hspecial⟩
  obtain ⟨e1, e2, e3, e4⟩ := Mem.closed_memory_swapped m0 a hlast hbuf hcond
  refine ⟨front, m0.bufs.length, m0.links.length, hlen1, hlen2, hfront, k1, ?_, e1, e3, ?_, ?_⟩
  · rw [k2, hv0]
  · rw [e2, hl0]
  · rw [← hl0, e4, hb0, set_last_buf_self _ hl]

/-- C15, at the chain `["x", "", "zz"]` in memory, on a call after `"callback("`
was sent: link 1, which held the empty final buffer 1, now points to the new
buffer 3, the `");"` buffer; the new link 3 points to buffer 1, which is as it
was; the chain is now the links 0, 1, 3. -/
theorem C15_empty_final_kept_last_witness :
    Mem.is_chain three_link_memory (some 0) ([0] ++ 1 :: [2]) ∧
    ∃ r1 in1 m1, Mem.ngx_http_jsonp_body_filter sent_request (some 0) three_link_memory
        = some (Mem.body_return.ngx_http_next_body_filter r1 in1 m1) ∧
      ∃ front s c, 3 ≤ s ∧ 3 ≤ c ∧
        Mem.is_chain m1 in1 (front ++ [0] ++ [1, c]) ∧
        m1.link_at 1 = { buf := s, next := some c } ∧ m1.buf_at s = tail_buf ∧
        m1.link_at c = { buf := 1, next := none } ∧ m1.buf_at 1 = data_buf "" true := by
  have hchain : Mem.is_chain three_link_memory (some 0) ([0] ++ 1 :: [2]) := by
    simp [Mem.is_chain, Mem.is_path, three_link_memory, Mem.ngx_memory.link_at]
  obtain ⟨h1, h2, _⟩ := C15_empty_final_kept_last sent_request ⟨true⟩ (some 0)
    three_link_memory [0] 1 [2] rfl hchain (by decide) (by decide) (by decide) (by decide)
  obtain ⟨r1, in1, m1, e⟩ := h1 (by decide)
  obtain ⟨front, s, c, k1, k2, _, k4, _, k6, k7, k8, k9⟩ := h2 r1 in1 m1 e
  exact ⟨hchain, r1, in1, m1, e, front, s, c, k1, k2, k4, k6, k7, k8, k9⟩

/-- C17. Mid-stream batches are untouched: for a call of the body filter with a
context present and `prefix` already 1, on a chain, empty or not, none of whose
buffers has `last_buf`, the filter ends with the call of the next body filter,
whose result is its own, passing the request as it received it (so the context
is as it was and nothing was allocated) and the input chain as it received it;
with the chain as it lies in memory, it passes the same chain pointer and no
object in memory has changed. -/
theorem C17_mid_stream_untouched (r : ngx_http_request_t) (chain : ngx_chain_t)
    (in_ : Option Nat) (m : Mem.ngx_memory) (cells : List Nat)
    (hctx : r.ctx = some ⟨true⟩)
    (hno : ∀ b ∈ chain, b.last_buf = false)
    (hchain : Mem.is_chain m in_ cells)
    (hnom : ∀ a ∈ cells, (m.buf_of a).last_buf = false) :
    ngx_http_jsonp_body_filter r chain = body_return.ngx_http_next_body_filter r chain ∧
    Mem.ngx_http_jsonp_body_filter r in_ m
      = some (Mem.body_return.ngx_http_next_body_filter r in_ m) := by
  constructor
  · exact body_filter_sent_no_final r chain hctx (scan_of_no_final chain hno)
  · rw [Mem.body_filter_sent r in_ m hctx]
    exact Mem.suffix_of_no_final r in_ m cells hchain hnom

/-- C17, at the empty chain and at a chain of one data buffer. -/
theorem C17_mid_stream_untouched_witness :
    ngx_http_jsonp_body_filter sent_request []
      = body_return.ngx_http_next_body_filter sent_request [] ∧
    Mem.ngx_http_jsonp_body_filter sent_request (some 0)
        { bufs := [data_buf "x" false], links := [{ buf := 0, next := none }] }
      = some (Mem.body_return.ngx_http_next_body_filter sent_request (some 0)
          { bufs := [data_buf "x" false], links := [{ buf := 0, next := none }] }) :=
  C17_mid_stream_untouched sent_request [] (some 0)
    { bufs := [data_buf "x" false], links := [{ buf := 0, next := none }] } [0] rfl
    (by simp)
    (by simp [Mem.is_chain, Mem.is_path, Mem.ngx_memory.link_at])
    (by decide)

end NgxHttpJsonp
